import Mathlib

/-!
Verification of the batch image generation pipeline: a shallow embedding of
the reference-name matcher, the API client retry/parse logic, the bounded
concurrency scheduler, the download/dedup pipeline and the history store,
with theorems checking the documented properties against the embedded code.

Sources embedded here: `main.py` (matcher `extract_image_names`, scheduler
semaphore logic, `start_generation`, `get_unique_filename`,
`download_image_async`, `mark_download_failed`), `services/api_client.py`
(`generate_image_async`), `services/history.py` (`save_history_record`).
-/

namespace SoraSpec

/-! ### ReferenceMatcher — `main.py` `extract_image_names` (lines 4494-4538) -/

/-- Normalisation applied to the prompt text: full-width space to ASCII space,
ASCII parentheses to full-width parentheses.  The three `str.replace` calls of
the source commute (no output of one is an input of another), so a single
character map is equivalent. -/
def normChar (c : Char) : Char :=
  if c = '　' then ' '
  else if c = '(' then '（'
  else if c = ')' then '）'
  else c

/-- The character class `[A-Za-z0-9一-龥]` of the boundary lookarounds in
`compile_pattern`: ASCII alphanumerics and the CJK ideograph block
U+4E00..U+9FA5. -/
def wordChar (c : Char) : Bool :=
  ('A' ≤ c && c ≤ 'Z') || ('a' ≤ c && c ≤ 'z') || ('0' ≤ c && c ≤ '9') ||
    ('一' ≤ c && c ≤ '龥')

/-- Boundary test of a span `[i, i+len)` in `t`: the negative lookbehind and
lookahead of the pattern — neither the character before nor the character
after the span may be a `wordChar`. -/
def boundaryOk (t : List Char) (i len : Nat) : Bool :=
  (match i with
   | 0 => true
   | j + 1 => !wordChar (t.getD j ' ')) &&
  (if i + len < t.length then !wordChar (t.getD (i + len) ' ') else true)

/-- One candidate position: the literal pattern matches at `i` and the
boundary lookarounds hold. -/
def matchOk (t p : List Char) (i : Nat) : Bool :=
  p.isPrefixOf (t.drop i) && boundaryOk t i p.length

/-- `re.finditer` over the literal pattern `p`: leftmost matches, each next
search resuming at the end of the previous match.  `fuel` bounds the scan;
`t.length + 1` always suffices since the position advances each step. -/
def scanFrom (t p : List Char) : Nat → Nat → List Nat
  | 0, _ => []
  | fuel + 1, i =>
    if t.length < i + p.length then []
    else if matchOk t p i then i :: scanFrom t p fuel (i + max p.length 1)
    else scanFrom t p fuel (i + 1)

/-- All accepted `finditer` positions of pattern `p` in text `t`. -/
def occurrencesOf (t p : List Char) : List Nat :=
  scanFrom t p (t.length + 1) 0

/-- `any(ch == NUL for ch in masked[s:e])`: is any position of the span
already consumed? -/
def anyMasked (m : List Bool) (s e : Nat) : Bool :=
  ((m.drop s).take (e - s)).any id

/-- Consume the span `[s, e)` in the mask. -/
def maskSpan (m : List Bool) (s e : Nat) : List Bool :=
  m.mapIdx fun i b => b || (decide (s ≤ i) && decide (i < e))

/-- Process a single occurrence of candidate `n` (of length `nlen`): reject it
when it overlaps a consumed span, otherwise record the name and consume the
span. -/
def acceptOcc (nlen : Nat) (n : String) (st : List String × List Bool)
    (i : Nat) : List String × List Bool :=
  if anyMasked st.2 i (i + nlen) then st
  else (st.1 ++ [n], maskSpan st.2 i (i + nlen))

/-- Process all occurrences of one candidate name against the current
matched-list and mask. -/
def processName (t : List Char) (st : List String × List Bool) (n : String) :
    List String × List Bool :=
  (occurrencesOf t n.data).foldl (acceptOcc n.length n) st

/-- Order-preserving deduplication (the `seen` set loop of the source). -/
def dedupKeepFirst (l : List String) : List String :=
  l.foldl (fun acc n => if n ∈ acc then acc else acc ++ [n]) []

/-- `extract_image_names`: normalise the text, deduplicate the non-empty
candidate names and sort them by descending length (the source sorts the
Python set of names, whose iteration order is arbitrary; ties between
equal-length names are therefore unspecified there and irrelevant here), then
run the masking match loop and deduplicate the result. -/
def extract_image_names (names : List String) (prompt : String) :
    List String :=
  let text := prompt.data.map normChar
  let cands := List.insertionSort (fun a b => b.length ≤ a.length)
    (dedupKeepFirst (names.filter fun n => !decide (n = "")))
  let st := cands.foldl (processName text) ([], text.map fun _ => false)
  dedupKeepFirst st.1

example : extract_image_names ["猫", "小猫"] "一只小猫" = [] := by decide

example : extract_image_names ["ab", "c"] "c ab" = ["ab", "c"] := by decide

example : extract_image_names ["小猫"] "了 小猫 了" = ["小猫"] := by decide

example : extract_image_names ["cat"] "a cat here" = ["cat"] := by decide

example : extract_image_names ["cat"] "a category" = [] := by decide

lemma dedupKeepFirst_aux_nodup (l acc : List String) (h : acc.Nodup) :
    (l.foldl (fun acc n => if n ∈ acc then acc else acc ++ [n]) acc).Nodup := by
  induction l generalizing acc with
  | nil => exact h
  | cons x tl ih =>
    simp only [List.foldl_cons]
    by_cases hx : x ∈ acc
    · simpa [hx] using ih acc h
    · have : (acc ++ [x]).Nodup := by
        simp [List.nodup_append, h, hx]
      simpa [hx] using ih (acc ++ [x]) this

lemma dedupKeepFirst_nodup (l : List String) : (dedupKeepFirst l).Nodup :=
  dedupKeepFirst_aux_nodup l [] List.nodup_nil

lemma dedupKeepFirst_aux_subset (l acc : List String) (x : String)
    (h : x ∈ l.foldl (fun acc n => if n ∈ acc then acc else acc ++ [n]) acc) :
    x ∈ acc ∨ x ∈ l := by
  induction l generalizing acc with
  | nil => exact Or.inl h
  | cons y tl ih =>
    simp only [List.foldl_cons] at h
    by_cases hy : y ∈ acc
    · rcases ih acc (by simpa [hy] using h) with h' | h'
      · exact Or.inl h'
      · exact Or.inr (List.mem_cons_of_mem _ h')
    · rcases ih (acc ++ [y]) (by simpa [hy] using h) with h' | h'
      · rcases List.mem_append.1 h' with h'' | h''
        · exact Or.inl h''
        · simp only [List.mem_singleton] at h''
          exact Or.inr (h'' ▸ List.mem_cons_self _ _)
      · exact Or.inr (List.mem_cons_of_mem _ h')

lemma dedupKeepFirst_subset (l : List String) (x : String)
    (h : x ∈ dedupKeepFirst l) : x ∈ l := by
  rcases dedupKeepFirst_aux_subset l [] x h with h' | h'
  · exact absurd h' (List.not_mem_nil x)
  · exact h'

lemma acceptOcc_fold_mem (occs : List Nat) (nlen : Nat) (n : String)
    (st : List String × List Bool) (x : String)
    (h : x ∈ (occs.foldl (acceptOcc nlen n) st).1) :
    x ∈ st.1 ∨ (x = n ∧ occs ≠ []) := by
  induction occs generalizing st with
  | nil => exact Or.inl h
  | cons i tl ih =>
    simp only [List.foldl_cons] at h
    rcases ih (acceptOcc nlen n st i) h with h' | h'
    · by_cases hm : anyMasked st.2 i (i + nlen) = true
      · exact Or.inl (by simpa [acceptOcc, hm] using h')
      · have h'' : x ∈ st.1 ++ [n] := by simpa [acceptOcc, hm] using h'
        rcases List.mem_append.1 h'' with h3 | h3
        · exact Or.inl h3
        · simp only [List.mem_singleton] at h3
          exact Or.inr ⟨h3, by simp⟩
    · exact Or.inr ⟨h'.1, by simp⟩

lemma processName_mem (t : List Char) (st : List String × List Bool)
    (n x : String) (h : x ∈ (processName t st n).1) :
    x ∈ st.1 ∨ (x = n ∧ occurrencesOf t n.data ≠ []) := by
  unfold processName at h
  exact acceptOcc_fold_mem _ _ _ _ _ h

lemma processName_fold_mem (t : List Char) (cands : List String)
    (st : List String × List Bool) (x : String)
    (h : x ∈ (cands.foldl (processName t) st).1) :
    x ∈ st.1 ∨ ∃ n ∈ cands, x = n ∧ occurrencesOf t n.data ≠ [] := by
  induction cands generalizing st with
  | nil => exact Or.inl h
  | cons c tl ih =>
    simp only [List.foldl_cons] at h
    rcases ih (processName t st c) h with h' | h'
    · rcases processName_mem t st c x h' with h'' | h''
      · exact Or.inl h''
      · exact Or.inr ⟨c, List.mem_cons_self _ _, h''⟩
    · rcases h' with ⟨n, hn, hx⟩
      exact Or.inr ⟨n, List.mem_cons_of_mem _ hn, hx⟩

lemma scanFrom_matchOk (t p : List Char) (fuel j i : Nat)
    (h : i ∈ scanFrom t p fuel j) : matchOk t p i = true := by
  induction fuel generalizing j with
  | zero => simp [scanFrom] at h
  | succ fuel ih =>
    unfold scanFrom at h
    by_cases h1 : t.length < j + p.length
    · simp [h1] at h
    · by_cases h2 : matchOk t p j = true
      · simp only [h1, if_false, h2, if_true] at h
        rcases List.mem_cons.1 h with h' | h'
        · exact h' ▸ h2
        · exact ih _ h'
      · simp only [h1, if_false, h2] at h
        exact ih _ (by simpa using h)

lemma occurrencesOf_matchOk (t p : List Char) (i : Nat)
    (h : i ∈ occurrencesOf t p) : matchOk t p i = true :=
  scanFrom_matchOk t p _ 0 i h

lemma scanFrom_le (t p : List Char) (fuel : Nat) : ∀ (j i : Nat),
    i ∈ scanFrom t p fuel j → i + p.length ≤ t.length := by
  induction fuel with
  | zero => intro j i h; simp [scanFrom] at h
  | succ fuel ih =>
    intro j i h
    unfold scanFrom at h
    by_cases h1 : t.length < j + p.length
    · simp [h1] at h
    · by_cases h2 : matchOk t p j = true
      · simp only [h1, if_false, h2, if_true] at h
        rcases List.mem_cons.1 h with h3 | h3
        · subst h3; omega
        · exact ih _ i h3
      · simp only [h1, if_false, h2] at h
        exact ih _ i (by simpa using h)

lemma occurrencesOf_le (t p : List Char) (i : Nat)
    (h : i ∈ occurrencesOf t p) : i + p.length ≤ t.length :=
  scanFrom_le t p _ 0 i h

/-- Two accepted occurrence spans overlap when some text position lies in
both. -/
def spanOverlap (a b : String × Nat) : Prop :=
  ∃ pos : Nat, (a.2 ≤ pos ∧ pos < a.2 + a.1.length) ∧
    (b.2 ≤ pos ∧ pos < b.2 + b.1.length)

lemma maskSpan_length (m : List Bool) (s e : Nat) :
    (maskSpan m s e).length = m.length := by
  simp [maskSpan]

lemma maskSpan_getD (m : List Bool) (s e pos : Nat) (hpos : pos < m.length) :
    (maskSpan m s e).getD pos false =
      (m.getD pos false || (decide (s ≤ pos) && decide (pos < e))) := by
  have hpos2 : pos < (maskSpan m s e).length := by
    rw [maskSpan_length]; exact hpos
  rw [List.getD_eq_getElem?_getD, List.getElem?_eq_getElem hpos2,
    List.getD_eq_getElem?_getD, List.getElem?_eq_getElem hpos]
  simp only [Option.getD_some]
  simp [maskSpan, List.get_eq_getElem]

lemma anyMasked_false_getD (m : List Bool) (s e pos : Nat)
    (h : anyMasked m s e = false) (h1 : s ≤ pos) (h2 : pos < e)
    (h3 : pos < m.length) : m.getD pos false = false := by
  cases hgd : m.getD pos false with
  | false => rfl
  | true =>
    exfalso
    have hib : pos - s < ((m.drop s).take (e - s)).length := by
      simp only [List.length_take, List.length_drop]
      omega
    have hmp : m.getD pos false = m[pos] := by
      rw [List.getD_eq_getElem?_getD, List.getElem?_eq_getElem h3]
      simp
    have helem : ((m.drop s).take (e - s))[pos - s] = true := by
      rw [List.getElem_take, List.getElem_drop]
      have hps : s + (pos - s) = pos := by omega
      rw [show m[s + (pos - s)] = m[pos] from by congr 1]
      rw [← hmp, hgd]
    have hany : anyMasked m s e = true := by
      unfold anyMasked
      rw [List.any_eq_true]
      refine ⟨((m.drop s).take (e - s))[pos - s], List.getElem_mem _, ?_⟩
      rw [helem]
      rfl
    rw [h] at hany
    exact Bool.false_ne_true hany

/-- Invariant of the masking loop: the matched names are the first components
of the accepted occurrences `ms`; each accepted occurrence is a
boundary-respecting, in-bounds match; accepted spans are pairwise
non-overlapping; every accepted span position is masked. -/
def MaskInv (t : List Char) (st : List String × List Bool)
    (ms : List (String × Nat)) : Prop :=
  st.1 = ms.map (·.1) ∧
  st.2.length = t.length ∧
  (∀ m ∈ ms, matchOk t m.1.data m.2 = true ∧ m.2 + m.1.length ≤ t.length) ∧
  List.Pairwise (fun a b => ¬ spanOverlap a b) ms ∧
  (∀ m ∈ ms, ∀ pos, m.2 ≤ pos → pos < m.2 + m.1.length →
    st.2.getD pos false = true)

lemma acceptOcc_inv (t : List Char) (st : List String × List Bool)
    (ms : List (String × Nat)) (n : String) (i : Nat)
    (hinv : MaskInv t st ms)
    (hm : matchOk t n.data i = true) (hb : i + n.length ≤ t.length) :
    ∃ ms2, MaskInv t (acceptOcc n.length n st i) ms2 := by
  rcases hinv with ⟨h1, h2, h3, h4, h5⟩
  by_cases hmask : anyMasked st.2 i (i + n.length) = true
  · refine ⟨ms, ?_⟩
    have : acceptOcc n.length n st i = st := by simp [acceptOcc, hmask]
    rw [this]
    exact ⟨h1, h2, h3, h4, h5⟩
  · have hmaskf : anyMasked st.2 i (i + n.length) = false := by
      cases hx : anyMasked st.2 i (i + n.length)
      · rfl
      · exact absurd hx hmask
    have hstep : acceptOcc n.length n st i =
        (st.1 ++ [n], maskSpan st.2 i (i + n.length)) := by
      simp [acceptOcc, hmaskf]
    refine ⟨ms ++ [(n, i)], ?_⟩
    rw [hstep]
    have hnew_disj : ∀ m ∈ ms, ¬ spanOverlap m (n, i) := by
      intro m hmem hov
      rcases hov with ⟨pos, hpm, hpn⟩
      have hptrue := h5 m hmem pos hpm.1 hpm.2
      rcases h3 m hmem with ⟨_, hb2⟩
      have hpos_len : pos < st.2.length := by omega
      have hpfalse := anyMasked_false_getD st.2 i (i + n.length) pos hmaskf
        hpn.1 hpn.2 hpos_len
      rw [hpfalse] at hptrue
      exact Bool.false_ne_true hptrue
    refine ⟨?_, ?_, ?_, ?_, ?_⟩
    · simp only [h1, List.map_append, List.map_cons, List.map_nil]
    · simp only [maskSpan_length, h2]
    · intro m hmem
      rcases List.mem_append.1 hmem with h6 | h6
      · exact h3 m h6
      · simp only [List.mem_singleton] at h6
        subst h6
        exact ⟨hm, hb⟩
    · rw [List.pairwise_append]
      refine ⟨h4, List.pairwise_singleton _ _, ?_⟩
      intro a ha b hbb
      simp only [List.mem_singleton] at hbb
      subst hbb
      exact hnew_disj a ha
    · intro m hmem pos hp1 hp2
      have hpos_len : pos < st.2.length := by
        rcases List.mem_append.1 hmem with h6 | h6
        · rcases h3 m h6 with ⟨_, hb2⟩
          omega
        · simp only [List.mem_singleton] at h6
          subst h6
          simp only at hp2
          omega
      rw [maskSpan_getD st.2 i (i + n.length) pos hpos_len]
      rcases List.mem_append.1 hmem with h6 | h6
      · rw [h5 m h6 pos hp1 hp2]
        rfl
      · simp only [List.mem_singleton] at h6
        subst h6
        simp only at hp1 hp2
        have : (decide (i ≤ pos) && decide (pos < i + n.length)) = true := by
          simp [hp1, hp2]
        rw [this, Bool.or_true]

lemma acceptOcc_fold_inv (t : List Char) (n : String) :
    ∀ (occs : List Nat) (st : List String × List Bool)
      (ms : List (String × Nat)), MaskInv t st ms →
      (∀ i ∈ occs, matchOk t n.data i = true ∧ i + n.length ≤ t.length) →
      ∃ ms2, MaskInv t (occs.foldl (acceptOcc n.length n) st) ms2 := by
  intro occs
  induction occs with
  | nil =>
    intro st ms h _
    exact ⟨ms, h⟩
  | cons i tl ih =>
    intro st ms h hocc
    simp only [List.foldl_cons]
    rcases acceptOcc_inv t st ms n i h
        (hocc i (List.mem_cons_self _ _)).1
        (hocc i (List.mem_cons_self _ _)).2 with ⟨ms2, h2⟩
    exact ih _ ms2 h2 (fun j hj => hocc j (List.mem_cons_of_mem _ hj))

lemma processName_inv (t : List Char) (st : List String × List Bool)
    (ms : List (String × Nat)) (n : String) (hinv : MaskInv t st ms) :
    ∃ ms2, MaskInv t (processName t st n) ms2 := by
  unfold processName
  refine acceptOcc_fold_inv t n (occurrencesOf t n.data) st ms hinv ?_
  intro i hi
  refine ⟨occurrencesOf_matchOk t n.data i hi, ?_⟩
  exact occurrencesOf_le t n.data i hi

lemma processName_fold_inv (t : List Char) :
    ∀ (cands : List String) (st : List String × List Bool)
      (ms : List (String × Nat)), MaskInv t st ms →
      ∃ ms2, MaskInv t (cands.foldl (processName t) st) ms2 := by
  intro cands
  induction cands with
  | nil =>
    intro st ms h
    exact ⟨ms, h⟩
  | cons c rest ih =>
    intro st ms h
    simp only [List.foldl_cons]
    rcases processName_inv t st ms c h with ⟨ms2, h2⟩
    exact ih _ ms2 h2

lemma maskInv_init (t : List Char) :
    MaskInv t ([], t.map fun _ => false) [] := by
  refine ⟨rfl, by rw [List.length_map], ?_, List.Pairwise.nil, ?_⟩
  · intro m hm
    exact absurd hm (List.not_mem_nil m)
  · intro m hm
    exact absurd hm (List.not_mem_nil m)

lemma acceptOcc_fold_replicate (nlen : Nat) (n : String) :
    ∀ (occs : List Nat) (st : List String × List Bool),
      ∃ k, (occs.foldl (acceptOcc nlen n) st).1 =
        st.1 ++ List.replicate k n := by
  intro occs
  induction occs with
  | nil =>
    intro st
    exact ⟨0, by simp⟩
  | cons i tl ih =>
    intro st
    simp only [List.foldl_cons]
    rcases ih (acceptOcc nlen n st i) with ⟨k, hk⟩
    by_cases hm : anyMasked st.2 i (i + nlen) = true
    · refine ⟨k, ?_⟩
      rw [hk]
      simp [acceptOcc, hm]
    · refine ⟨k + 1, ?_⟩
      rw [hk]
      have hstep : (acceptOcc nlen n st i).1 = st.1 ++ [n] := by
        simp [acceptOcc, hm]
      rw [hstep, List.append_assoc]
      simp [List.replicate_succ]

lemma processName_blocks (t : List Char) :
    ∀ (cands : List String) (st : List String × List Bool),
      ∃ bs : List (String × Nat), bs.map (·.1) = cands ∧
        (cands.foldl (processName t) st).1 =
          st.1 ++ (bs.map fun b => List.replicate b.2 b.1).flatten := by
  intro cands
  induction cands with
  | nil =>
    intro st
    exact ⟨[], rfl, by simp⟩
  | cons c rest ih =>
    intro st
    simp only [List.foldl_cons]
    rcases acceptOcc_fold_replicate c.length c (occurrencesOf t c.data) st
      with ⟨k, hk⟩
    rcases ih (processName t st c) with ⟨bs, hbs1, hbs2⟩
    refine ⟨(c, k) :: bs, by simp [hbs1], ?_⟩
    rw [hbs2]
    rw [show (processName t st c).1 = st.1 ++ List.replicate k c from hk]
    simp [List.append_assoc]

lemma dedup_fold_mem_id (acc : List String) (n : String) (k : Nat)
    (h : n ∈ acc) :
    (List.replicate k n).foldl
      (fun acc n => if n ∈ acc then acc else acc ++ [n]) acc = acc := by
  induction k with
  | zero => rfl
  | succ k ih => simp [List.replicate_succ, List.foldl_cons, h, ih]

lemma dedup_fold_replicate (acc : List String) (n : String) (k : Nat) :
    (List.replicate k n).foldl
      (fun acc n => if n ∈ acc then acc else acc ++ [n]) acc = acc ∨
    (List.replicate k n).foldl
      (fun acc n => if n ∈ acc then acc else acc ++ [n]) acc =
      acc ++ [n] := by
  cases k with
  | zero => exact Or.inl rfl
  | succ k =>
    by_cases h : n ∈ acc
    · exact Or.inl (dedup_fold_mem_id acc n (k + 1) h)
    · right
      rw [List.replicate_succ, List.foldl_cons]
      have hstep : (if n ∈ acc then acc else acc ++ [n]) = acc ++ [n] := by
        simp [h]
      rw [hstep]
      exact dedup_fold_mem_id (acc ++ [n]) n k (by simp)

lemma dedup_join_sublist :
    ∀ (bs : List (String × Nat)) (acc : List String),
      ∃ sub, ((bs.map fun b => List.replicate b.2 b.1).flatten.foldl
          (fun acc n => if n ∈ acc then acc else acc ++ [n]) acc =
        acc ++ sub) ∧ List.Sublist sub (bs.map (·.1)) := by
  intro bs
  induction bs with
  | nil =>
    intro acc
    exact ⟨[], by simp, by simp⟩
  | cons b rest ih =>
    intro acc
    rw [List.map_cons, List.flatten_cons, List.foldl_append]
    rcases dedup_fold_replicate acc b.1 b.2 with h | h
    · rw [h]
      rcases ih acc with ⟨sub, h1, h2⟩
      exact ⟨sub, h1, h2.cons b.1⟩
    · rw [h]
      rcases ih (acc ++ [b.1]) with ⟨sub, h1, h2⟩
      refine ⟨b.1 :: sub, ?_, ?_⟩
      · rw [h1, List.append_assoc]
        simp
      · exact h2.cons₂ b.1

lemma dedup_fold_result_sublist (t : List Char) (cands : List String) :
    List.Sublist (dedupKeepFirst ((cands.foldl (processName t)
      ([], t.map fun _ => false)).1)) cands := by
  rcases processName_blocks t cands ([], t.map fun _ => false)
    with ⟨bs, hbs1, hbs2⟩
  rw [hbs2]
  simp only [List.nil_append]
  unfold dedupKeepFirst
  rcases dedup_join_sublist bs [] with ⟨sub, h1, h2⟩
  rw [h1]
  simpa [hbs1] using h2

instance : IsTotal String fun a b => b.length ≤ a.length :=
  ⟨fun a b => Nat.le_total b.length a.length⟩

instance : IsTrans String fun a b => b.length ≤ a.length :=
  ⟨fun _ _ _ hab hbc => Nat.le_trans hbc hab⟩

/-- C5 (amended): for every prompt and candidate set, the matcher result has
no duplicate names; every reported name is a non-empty candidate with a
boundary-respecting occurrence in the normalized text; the reported names are
the (order-preserving deduplicated) names of a run of accepted occurrences
whose spans are pairwise non-overlapping — an occurrence overlapping a span
already consumed by an earlier (longer) candidate is rejected by the mask;
and the result is ordered by candidate priority: non-increasing name length,
not first-occurrence position in the text. -/
theorem matcher_nodup_and_sound (names : List String) (prompt : String) :
    (extract_image_names names prompt).Nodup ∧
    (∀ n ∈ extract_image_names names prompt,
      n ∈ names ∧ n ≠ "" ∧
      ∃ i, matchOk (prompt.data.map normChar) n.data i = true) ∧
    (∃ ms : List (String × Nat),
      extract_image_names names prompt = dedupKeepFirst (ms.map (·.1)) ∧
      (∀ m ∈ ms, matchOk (prompt.data.map normChar) m.1.data m.2 = true) ∧
      List.Pairwise (fun a b => ¬ spanOverlap a b) ms) ∧
    List.Sorted (fun a b => b.length ≤ a.length)
      (extract_image_names names prompt) := by
  refine ⟨?_, ?_, ?_, ?_⟩
  · exact dedupKeepFirst_nodup _
  · intro n hn
    have hst := dedupKeepFirst_subset _ _ hn
    rcases processName_fold_mem _ _ _ _ hst with h' | h'
    · exact absurd h' (List.not_mem_nil n)
    · rcases h' with ⟨c, hc, hxc, hocc⟩
      subst hxc
      have hmem : n ∈ dedupKeepFirst (names.filter fun m => !decide (m = "")) :=
        (List.perm_insertionSort (fun a b : String => b.length ≤ a.length)
          (dedupKeepFirst (names.filter fun m => !decide (m = "")))).subset hc
      have hfil := dedupKeepFirst_subset _ _ hmem
      have hfil' := List.mem_filter.1 hfil
      refine ⟨hfil'.1, by simpa using hfil'.2, ?_⟩
      rcases List.exists_mem_of_ne_nil _ hocc with ⟨i, hi⟩
      exact ⟨i, occurrencesOf_matchOk _ _ _ hi⟩
  · rcases processName_fold_inv (prompt.data.map normChar)
        (List.insertionSort (fun a b => b.length ≤ a.length)
          (dedupKeepFirst (names.filter fun n => !decide (n = ""))))
        ([], (prompt.data.map normChar).map fun _ => false) []
        (maskInv_init _) with ⟨ms, hinv⟩
    rcases hinv with ⟨h1, _, h3, h4, _⟩
    refine ⟨ms, ?_, fun m hm => (h3 m hm).1, h4⟩
    show dedupKeepFirst _ = _
    rw [h1]
  · have hsub : List.Sublist (extract_image_names names prompt)
        (List.insertionSort (fun a b => b.length ≤ a.length)
          (dedupKeepFirst (names.filter fun n => !decide (n = "")))) :=
      dedup_fold_result_sublist (prompt.data.map normChar) _
    exact List.Pairwise.sublist hsub
      (List.sorted_insertionSort (fun a b : String => b.length ≤ a.length) _)

/-- C5 witness: the amended theorem applied at a concrete input. -/
theorem matcher_nodup_and_sound_witness :
    (extract_image_names ["cat"] "a cat here").Nodup ∧
    (∀ n ∈ extract_image_names ["cat"] "a cat here",
      n ∈ ["cat"] ∧ n ≠ "" ∧
      ∃ i, matchOk ("a cat here".data.map normChar) n.data i = true) ∧
    (∃ ms : List (String × Nat),
      extract_image_names ["cat"] "a cat here" =
        dedupKeepFirst (ms.map (·.1)) ∧
      (∀ m ∈ ms, matchOk ("a cat here".data.map normChar) m.1.data m.2 =
        true) ∧
      List.Pairwise (fun a b => ¬ spanOverlap a b) ms) ∧
    List.Sorted (fun a b => b.length ≤ a.length)
      (extract_image_names ["cat"] "a cat here") :=
  matcher_nodup_and_sound ["cat"] "a cat here"

/-- C5 counterexample: with candidates `["ab", "c"]` and text `"c ab"`, the
accepted occurrence of `"c"` (position 0) precedes that of `"ab"` (position
2), yet the result lists `"ab"` first: matches are collected per candidate in
descending length order, not in text order. -/
theorem matcher_order_counterexample :
    extract_image_names ["ab", "c"] "c ab" = ["ab", "c"] ∧
    occurrencesOf ("c ab".data.map normChar) "c".data = [0] ∧
    occurrencesOf ("c ab".data.map normChar) "ab".data = [2] := by decide

/-- C4 counterexample: the matcher applied to candidates `{"猫", "小猫"}` and
the prompt `"一只小猫"` does not return `["小猫"]`. -/
theorem matcher_cjk_counterexample :
    extract_image_names ["猫", "小猫"] "一只小猫" ≠ ["小猫"] := by decide

/-- C4 (amended): on `{"猫", "小猫"}` against `"一只小猫"` the matcher returns
`[]`: the boundary lookarounds treat the adjacent ideographs `只` and `小` as
word characters, so both candidate occurrences are rejected. -/
theorem matcher_cjk_amended :
    extract_image_names ["猫", "小猫"] "一只小猫" = [] ∧
    occurrencesOf ("一只小猫".data.map normChar) "小猫".data = [] ∧
    occurrencesOf ("一只小猫".data.map normChar) "猫".data = [] ∧
    wordChar '只' = true ∧ wordChar '小' = true := by decide

/-! ### ApiClient retry loop — `services/api_client.py` `generate_image_async`
(lines 86-140).  One attempt of the request/parse body is abstracted as an
oracle `outcome : Nat → Except E L` giving the result of the attempt with
that loop index; the loop structure, backoff sleeps and error propagation are
embedded faithfully. -/

/-- The backoff sleep before the loop iteration with index `attempt ≥ 1`:
`min(8, 0.5 * 2 ** (attempt - 1))` seconds. -/
def backoffDelay (attempt : Nat) : ℚ :=
  min 8 ((1 : ℚ) / 2 * 2 ^ (attempt - 1))

/-- Observable trace of one `generate_image_async` call: the backoff delays
slept, in order; the number of attempts performed; the final outcome. -/
structure GenTrace (E L : Type) where
  delays : List ℚ
  attemptsMade : Nat
  result : Except E L

/-- The `while attempt <= retry_count` loop: `k` is the number of retries
still allowed after the current attempt (`retry_count - attempt`), `attempt`
the current loop index.  A sleep precedes every attempt except index 0; on
failure with no retries left the last error is re-raised. -/
def genAttempts {E L : Type} (outcome : Nat → Except E L) :
    Nat → Nat → GenTrace E L
  | 0, attempt =>
    let ds : List ℚ := if attempt = 0 then [] else [backoffDelay attempt]
    match outcome attempt with
    | .ok v => ⟨ds, 1, .ok v⟩
    | .error e => ⟨ds, 1, .error e⟩
  | k + 1, attempt =>
    let ds : List ℚ := if attempt = 0 then [] else [backoffDelay attempt]
    match outcome attempt with
    | .ok v => ⟨ds, 1, .ok v⟩
    | .error _ =>
      let t := genAttempts outcome k (attempt + 1)
      ⟨ds ++ t.delays, t.attemptsMade + 1, t.result⟩

/-- `generate_image_async` with `retry_count`: the loop starts at attempt
index 0 with `retry_count` retries allowed. -/
def generate_image_async {E L : Type} (outcome : Nat → Except E L)
    (retry_count : Nat) : GenTrace E L :=
  genAttempts outcome retry_count 0

/-- Is an attempt outcome a raised error (a member of the `except` clause of
the loop)? -/
def isErr {E L : Type} : Except E L → Bool
  | .error _ => true
  | .ok _ => false

lemma genAttempts_spec {E L : Type} (outcome : Nat → Except E L) (k : Nat) :
    ∀ a, 1 ≤ a →
      1 ≤ (genAttempts outcome k a).attemptsMade ∧
      (genAttempts outcome k a).attemptsMade ≤ k + 1 ∧
      (genAttempts outcome k a).delays.length =
        (genAttempts outcome k a).attemptsMade ∧
      (∀ j, j < (genAttempts outcome k a).attemptsMade →
        (genAttempts outcome k a).delays.get? j =
          some (backoffDelay (a + j))) ∧
      ((∀ x, a ≤ x → x ≤ a + k → isErr (outcome x) = true) →
        (genAttempts outcome k a).result = outcome (a + k)) := by
  induction k with
  | zero =>
    intro a ha
    have hne : ¬(a = 0) := by omega
    match hout : outcome a with
    | .ok v =>
      have heq : genAttempts outcome 0 a = ⟨[backoffDelay a], 1, .ok v⟩ := by
        simp [genAttempts, hne, hout]
      rw [heq]
      refine ⟨by simp, by simp, by simp, ?_, ?_⟩
      · intro j hj
        have hj0 : j = 0 := by simpa using hj
        subst hj0
        simp
      · intro _
        simp [hout]
    | .error e =>
      have heq : genAttempts outcome 0 a = ⟨[backoffDelay a], 1, .error e⟩ := by
        simp [genAttempts, hne, hout]
      rw [heq]
      refine ⟨by simp, by simp, by simp, ?_, ?_⟩
      · intro j hj
        have hj0 : j = 0 := by simpa using hj
        subst hj0
        simp
      · intro _
        simp [hout]
  | succ k ih =>
    intro a ha
    have hne : ¬(a = 0) := by omega
    match hout : outcome a with
    | .ok v =>
      have heq : genAttempts outcome (k + 1) a = ⟨[backoffDelay a], 1, .ok v⟩ := by
        simp [genAttempts, hne, hout]
      rw [heq]
      refine ⟨by simp, by simp, by simp, ?_, ?_⟩
      · intro j hj
        have hj0 : j = 0 := by simpa using hj
        subst hj0
        simp
      · intro hall
        have hthis := hall a le_rfl (by omega)
        rw [hout] at hthis
        simp [isErr] at hthis
    | .error e =>
      rcases ih (a + 1) (by omega) with ⟨i1, i2, i3, i4, i5⟩
      have heq : genAttempts outcome (k + 1) a =
          ⟨backoffDelay a :: (genAttempts outcome k (a + 1)).delays,
           (genAttempts outcome k (a + 1)).attemptsMade + 1,
           (genAttempts outcome k (a + 1)).result⟩ := by
        simp [genAttempts, hne, hout]
      rw [heq]
      refine ⟨by simp, ?_, ?_, ?_, ?_⟩
      · simp only
        omega
      · simp only [List.length_cons]
        omega
      · intro j hj
        simp only at hj
        match j with
        | 0 => simp
        | j + 1 =>
          simp only [List.get?_cons_succ]
          rw [i4 j (by omega)]
          congr 2
          omega
      · intro hall
        simp only
        rw [i5 (fun x hx1 hx2 => hall x (by omega) (by omega))]
        congr 1
        omega

/-- C2: for every retry limit `r` and attempt oracle, at most `r + 1`
attempts are made; no delay precedes the first attempt (exactly one delay
per later attempt); the delay at list index `j` (i.e. before attempt
`i = j + 2`, 1-based) is `min(8, 0.5 * 2 ^ j)` seconds; and if every attempt
fails, the error of the final attempt (index `r`) is the propagated result. -/
theorem api_retry_policy {E L : Type} (outcome : Nat → Except E L) (r : Nat) :
    (generate_image_async outcome r).attemptsMade ≤ r + 1 ∧
    (generate_image_async outcome r).delays.length + 1 =
      (generate_image_async outcome r).attemptsMade ∧
    (∀ j, j < (generate_image_async outcome r).delays.length →
      (generate_image_async outcome r).delays.get? j =
        some (min 8 ((1 : ℚ) / 2 * 2 ^ j))) ∧
    ((∀ a, a ≤ r → isErr (outcome a) = true) →
      (generate_image_async outcome r).result = outcome r) := by
  cases r with
  | zero =>
    match hout : outcome 0 with
    | .ok v =>
      have heq : generate_image_async outcome 0 = ⟨[], 1, .ok v⟩ := by
        simp [generate_image_async, genAttempts, hout]
      rw [heq]
      refine ⟨by simp, by simp, by simp, ?_⟩
      intro _
      simp [hout]
    | .error e =>
      have heq : generate_image_async outcome 0 = ⟨[], 1, .error e⟩ := by
        simp [generate_image_async, genAttempts, hout]
      rw [heq]
      refine ⟨by simp, by simp, by simp, ?_⟩
      intro _
      simp [hout]
  | succ k =>
    match hout : outcome 0 with
    | .ok v =>
      have heq : generate_image_async outcome (k + 1) = ⟨[], 1, .ok v⟩ := by
        simp [generate_image_async, genAttempts, hout]
      rw [heq]
      refine ⟨by simp, by simp, by simp, ?_⟩
      intro hall
      have hthis := hall 0 (by omega)
      rw [hout] at hthis
      simp [isErr] at hthis
    | .error e =>
      rcases genAttempts_spec outcome k 1 le_rfl with ⟨i1, i2, i3, i4, i5⟩
      have heq : generate_image_async outcome (k + 1) =
          ⟨(genAttempts outcome k 1).delays,
           (genAttempts outcome k 1).attemptsMade + 1,
           (genAttempts outcome k 1).result⟩ := by
        simp [generate_image_async, genAttempts, hout]
      rw [heq]
      refine ⟨?_, ?_, ?_, ?_⟩
      · simp only
        omega
      · simp only
        omega
      · intro j hj
        simp only at hj ⊢
        rw [i4 j (by omega)]
        have h1j : 1 + j - 1 = j := by omega
        rw [backoffDelay, h1j]
      · intro hall
        simp only
        rw [i5 (fun x hx1 hx2 => hall x (by omega))]
        congr 1
        omega

/-- A concrete all-failing attempt oracle. -/
def allFailOutcome : Nat → Except String String :=
  fun n => .error ("e" ++ toString n)

/-- C2 witness: the retry policy at `retry_count = 2` with every attempt
failing — the hypothesis of the final conjunct discharged concretely. -/
theorem api_retry_policy_witness :
    (generate_image_async allFailOutcome 2).attemptsMade ≤ 3 ∧
    (generate_image_async allFailOutcome 2).delays.length + 1 =
      (generate_image_async allFailOutcome 2).attemptsMade ∧
    (∀ j, j < (generate_image_async allFailOutcome 2).delays.length →
      (generate_image_async allFailOutcome 2).delays.get? j =
        some (min 8 ((1 : ℚ) / 2 * 2 ^ j))) ∧
    (generate_image_async allFailOutcome 2).result = allFailOutcome 2 := by
  rcases api_retry_policy allFailOutcome 2 with ⟨h1, h2, h3, h4⟩
  exact ⟨h1, h2, h3, h4 (fun a _ => rfl)⟩

/-! ### ApiClient response parsing — `services/api_client.py`
`generate_image_async` (lines 101-134).  JSON values are embedded as `JVal`;
`jdumps` mirrors `json.dumps(data, ensure_ascii=False)` (default separators;
string escaping is not modelled — the inputs considered contain no characters
that `json.dumps` would escape). -/

/-- A parsed JSON value as returned by `resp.json()`. -/
inductive JVal where
  | jnull
  | jbool (b : Bool)
  | jnum (n : Int)
  | jstr (s : String)
  | jarr (xs : List JVal)
  | jobj (fields : List (String × JVal))

mutual

/-- `json.dumps(·, ensure_ascii=False)` with the default separators. -/
def jdumps : JVal → String
  | .jnull => "null"
  | .jbool b => if b then "true" else "false"
  | .jnum n => toString n
  | .jstr s => "\"" ++ s ++ "\""
  | .jarr xs => "[" ++ jdumpsArr xs ++ "]"
  | .jobj fs => "\x7b" ++ jdumpsObj fs ++ "\x7d"

def jdumpsArr : List JVal → String
  | [] => ""
  | [x] => jdumps x
  | x :: y :: tl => jdumps x ++ ", " ++ jdumpsArr (y :: tl)

def jdumpsObj : List (String × JVal) → String
  | [] => ""
  | [(k, v)] => "\"" ++ k ++ "\": " ++ jdumps v
  | (k, v) :: y :: tl => "\"" ++ k ++ "\": " ++ jdumps v ++ ", " ++ jdumpsObj (y :: tl)

end

/-- Dictionary lookup (`dict` keys are unique, first association wins). -/
def jlookup (fs : List (String × JVal)) (k : String) : Option JVal :=
  match fs with
  | [] => none
  | (k2, v) :: tl => if k2 = k then some v else jlookup tl k

/-- Python `[0]` on the `choices` value: first element of a list; any other
shape (empty list, non-list) raises an exception outside the parser's
`ValueError` handling, modelled as `none`. -/
def getItem0 : JVal → Option JVal
  | .jarr (x :: _) => some x
  | _ => none

/-- Python `.get(k, dflt)` on a value expected to be a dict; a non-dict
receiver raises `AttributeError` (modelled as `none`). -/
def dictGet (v : JVal) (k : String) (dflt : JVal) : Option JVal :=
  match v with
  | .jobj fs => some ((jlookup fs k).getD dflt)
  | _ => none

/-- The content extraction
`data.get("choices", [{}])[0].get("message", {}).get("content")`.
Outer `none`: an exception escaped (non-dict receiver or bad index);
`some none`: the extraction succeeded and content is Python `None`;
`some (some v)`: content is the JSON value `v`. -/
def getContent (data : JVal) : Option (Option JVal) :=
  match dictGet data "choices" (.jarr [.jobj []]) with
  | none => none
  | some choices =>
    match getItem0 choices with
    | none => none
    | some c0 =>
      match dictGet c0 "message" (.jobj []) with
      | none => none
      | some msg =>
        match msg with
        | .jobj fs => some (jlookup fs "content")
        | _ => none

/-- Capture of `(.*?)\)`: the characters up to the first `)` — failing if a
newline intervenes (`.` does not match a newline) or no `)` follows. -/
def takeUntilClose : List Char → Option (List Char)
  | [] => none
  | c :: tl =>
    if c = ')' then some []
    else if c = '\n' then none
    else (takeUntilClose tl).map (c :: ·)

/-- `re.search` for a markdown-link pattern `pre(.*?)\)` (with `pre` the
literal prefix ending in the opening parenthesis): leftmost occurrence of the
prefix followed by a same-line closing parenthesis; returns the captured
group. -/
def searchLink (pre : List Char) : List Char → Option (List Char)
  | [] => none
  | c :: tl =>
    if pre.isPrefixOf (c :: tl) then
      match takeUntilClose ((c :: tl).drop pre.length) with
      | some cap => some cap
      | none => searchLink pre tl
    else searchLink pre tl

/-- The character class `[A-Za-z0-9+/=]` of the base64 body. -/
def b64Char (c : Char) : Bool :=
  ('A' ≤ c && c ≤ 'Z') || ('a' ≤ c && c ≤ 'z') || ('0' ≤ c && c ≤ '9') ||
    c = '+' || c = '/' || c = '='

/-- Match `data:image/[^;]+;base64,[A-Za-z0-9+/=]+` anchored at the head of
`t`, returning the whole match. -/
def matchDataUriAt (t : List Char) : Option (List Char) :=
  if "data:image/".data.isPrefixOf t then
    let rest := t.drop 11
    let mime := rest.takeWhile (fun c => !decide (c = ';'))
    if mime.length = 0 then none
    else
      match rest.drop mime.length with
      | ';' :: a2 =>
        if "base64,".data.isPrefixOf a2 then
          let b := (a2.drop 7).takeWhile b64Char
          if b.length = 0 then none
          else some ("data:image/".data ++ mime ++ ';' :: "base64,".data ++ b)
        else none
      | _ => none
  else none

/-- `re.search` for the data-URI pattern: leftmost match. -/
def searchDataUri : List Char → Option (List Char)
  | [] => none
  | c :: tl =>
    match matchDataUriAt (c :: tl) with
    | some m => some m
    | none => searchDataUri tl

/-- Step 1 of the parser: the two markdown patterns, only tried when
`model_type != "nano-banana"`. -/
def stepOneLink (model_type : String) (s : String) : Option (List Char) :=
  if model_type = "nano-banana" then none
  else
    match searchLink "[点击下载](".data s.data with
    | some cap => some cap
    | none => searchLink "![图片](".data s.data

/-- Python truthiness of a JSON value: `None`, `False`, `0`, `""`, the empty
list and the empty dict are falsy, everything else truthy. -/
def jTruthy : JVal → Bool
  | .jnull => false
  | .jbool b => b
  | .jnum n => !decide (n = 0)
  | .jstr u => !decide (u = "")
  | .jarr xs => !xs.isEmpty
  | .jobj fs => !fs.isEmpty

/-- Step 3: scan a content list for an `image_url` part.  The source runs
`url` = `part.get("image_url", empty dict).get("url")`, `if url: return url`: a
falsy url (missing, `None`, `""`, `0`, …) continues the scan, a truthy url is
returned verbatim — whatever its type.  Outer `none`: an exception escaped
(`image_url` present with a non-dict value); `some (some v)`: the value
returned; `some none`: the loop finished with no match. -/
def scanParts : List JVal → Option (Option JVal)
  | [] => some none
  | p :: tl =>
    match p with
    | .jobj fs =>
      match jlookup fs "type" with
      | some (.jstr ty) =>
        if ty = "image_url" then
          match (jlookup fs "image_url").getD (.jobj []) with
          | .jobj ifs =>
            match jlookup ifs "url" with
            | some v => if jTruthy v then some (some v) else scanParts tl
            | none => scanParts tl
          | _ => none
        else scanParts tl
      | _ => scanParts tl
    | _ => scanParts tl

/-- Result of the parsing phase: a located image URL or data URI, a
non-string value returned verbatim from the content-list scan, a raised
`ValueError` (retried by the loop), or an exception outside the `except`
clause. -/
inductive ParseResult where
  | ok (loc : String)
  | okRaw (v : JVal)
  | parseErr (msg : String)
  | exc

/-- The response-parsing phase of `generate_image_async` (lines 101-134):
steps 1-2 on string content, step 3 on list content, serialize-and-scan
fallback only for other content shapes, parse error otherwise. -/
def parse_response (model_type : String) (data : JVal) : ParseResult :=
  match getContent data with
  | none => .exc
  | some contentOpt =>
    match contentOpt with
    | some (.jstr s) =>
      match stepOneLink model_type s with
      | some cap => .ok ⟨cap⟩
      | none =>
        match searchDataUri s.data with
        | some m => .ok ⟨m⟩
        | none => .parseErr "响应中没有找到图片数据"
    | some (.jarr parts) =>
      match scanParts parts with
      | none => .exc
      | some (some (.jstr u)) => .ok u
      | some (some v) => .okRaw v
      | some none => .parseErr "响应中没有找到图片数据(list)"
    | _ =>
      match searchDataUri (jdumps data).data with
      | some m => .ok ⟨m⟩
      | none => .parseErr "响应格式无法解析"

example :
    parse_response "sora_image"
      (.jobj [("choices", .jarr [.jobj [("message",
        .jobj [("content", .jstr "done [点击下载](http://h/x.png)")])]])]) =
      .ok "http://h/x.png" := by rfl

example :
    parse_response "nano-banana"
      (.jobj [("choices", .jarr [.jobj [("message",
        .jobj [("content", .jarr [.jobj [("type", .jstr "image_url"),
          ("image_url", .jobj [("url", .jstr "http://h/y.png")])]])])]])]) =
      .ok "http://h/y.png" := by rfl

example :
    parse_response "sora_image"
      (.jobj [("choices", .jarr [.jobj [("message",
        .jobj [("content", .jstr "see data:image/png;base64,AA== end")])]])]) =
      .ok "data:image/png;base64,AA==" := by rfl

/-- A response whose `content` is a plain string without image data, while a
base64 data URI sits in another field of the response. -/
def respWithHiddenUri : JVal :=
  .jobj [("choices", .jarr [.jobj [("message",
    .jobj [("content", .jstr "done")])]]),
    ("extra", .jstr "data:image/png;base64,AA==")]

/-- A response whose `content` is a number, with a base64 data URI in another
field of the response. -/
def respNumContent : JVal :=
  .jobj [("choices", .jarr [.jobj [("message",
    .jobj [("content", .jnum 5)])]]),
    ("extra", .jstr "data:image/png;base64,BB==")]

/-- C3 counterexample: a response whose serialization contains a base64 data
URI but whose string content carries no image locator yields a parse error —
the fallback scan is not reached from the string branch. -/
theorem parse_fallback_counterexample :
    parse_response "sora_image" respWithHiddenUri =
      .parseErr "响应中没有找到图片数据" ∧
    (searchDataUri (jdumps respWithHiddenUri).data).isSome = true :=
  ⟨rfl, rfl⟩

/-- C3 (amended): the serialize-and-scan fallback runs only when the
extracted content is neither a string nor a list.  A string content in which
steps 1-2 find nothing raises the parse error directly, regardless of the
rest of the response; a list content in which the part scan finds no truthy
url raises its parse error directly; only for non-string non-list content is
the result exactly the fallback scan of the serialized response. -/
theorem parse_fallback_amended (mt : String) (data : JVal) :
    (∀ s, getContent data = some (some (.jstr s)) →
      stepOneLink mt s = none → searchDataUri s.data = none →
      parse_response mt data = .parseErr "响应中没有找到图片数据") ∧
    (∀ parts, getContent data = some (some (.jarr parts)) →
      scanParts parts = some none →
      parse_response mt data = .parseErr "响应中没有找到图片数据(list)") ∧
    (∀ c, getContent data = some c →
      (∀ s, c ≠ some (.jstr s)) → (∀ xs, c ≠ some (.jarr xs)) →
      parse_response mt data =
        (match searchDataUri (jdumps data).data with
         | some m => .ok (String.mk m)
         | none => .parseErr "响应格式无法解析")) := by
  refine ⟨?_, ?_, ?_⟩
  · intro s h1 h2 h3
    simp [parse_response, h1, h2, h3]
  · intro parts h1 h2
    simp [parse_response, h1, h2]
  · intro c hc h1 h2
    match c with
    | none => simp [parse_response, hc]
    | some (.jnull) => simp [parse_response, hc]
    | some (.jbool b) => simp [parse_response, hc]
    | some (.jnum n) => simp [parse_response, hc]
    | some (.jobj fs) => simp [parse_response, hc]
    | some (.jstr s) => exact absurd rfl (h1 s)
    | some (.jarr xs) => exact absurd rfl (h2 xs)

/-- A response whose `content` is a list with no image part. -/
def respListNoImage : JVal :=
  .jobj [("choices", .jarr [.jobj [("message",
    .jobj [("content", .jarr [.jobj [("type", .jstr "text"),
      ("text", .jstr "hi")]])])]])]

/-- C3 witness: the amended theorem applied at three concrete responses, one
per conjunct. -/
theorem parse_fallback_amended_witness :
    parse_response "sora_image" respWithHiddenUri =
      .parseErr "响应中没有找到图片数据" ∧
    parse_response "sora_image" respListNoImage =
      .parseErr "响应中没有找到图片数据(list)" ∧
    parse_response "sora_image" respNumContent =
      .ok "data:image/png;base64,BB==" := by
  refine ⟨?_, ?_, ?_⟩
  · exact (parse_fallback_amended "sora_image" respWithHiddenUri).1 "done"
      rfl rfl rfl
  · exact (parse_fallback_amended "sora_image" respListNoImage).2.1
      [.jobj [("type", .jstr "text"), ("text", .jstr "hi")]] rfl rfl
  · have h := (parse_fallback_amended "sora_image" respNumContent).2.2
      (some (.jnum 5)) rfl
      (fun s hs => JVal.noConfusion (Option.some.inj hs))
      (fun xs hs => JVal.noConfusion (Option.some.inj hs))
    rw [h]
    rfl

/-! ### RequestScheduler concurrency — `main.py` lines 3789-3805 and
4906-4931.  `asyncio.Semaphore(max_concurrent_tasks)` guards `worker.run()`
only: `_run_with_semaphore` holds a permit while the worker performs the
generation call (including its retries).  On success the worker emits
`finished`, whose handler `handle_success` sets the row to 下载中 and spawns
`download_image_async` as a separate task via `asyncio.create_task`; the
permit is released when `worker.run()` returns, so downloads run outside the
gate.  The step relation below embeds those transitions; each step is one
atomic segment between suspension points of the event loop. -/

/-- Task status as displayed (`等待中`, `生成中`, retrying, `下载中`,
`成功`, `失败`). -/
inductive TStatus where
  | waiting
  | generating
  | retrying
  | downloading
  | succeeded
  | failed
deriving DecidableEq

/-- Does a task in this status hold a semaphore permit?  Generation and its
retries run inside `_run_with_semaphore`. -/
def holdsPermit : TStatus → Bool
  | .generating => true
  | .retrying => true
  | _ => false

/-- Statuses counted by the claimed bound: Generating, Retrying,
Downloading. -/
def inFlight : TStatus → Bool
  | .generating => true
  | .retrying => true
  | .downloading => true
  | _ => false

/-- Scheduler state: free permits of the semaphore and the status of each
task of the batch. -/
structure Sched where
  sem : Nat
  tasks : List TStatus
deriving DecidableEq

/-- One event-loop step of the batch pipeline.

* `dispatch`: `_run_with_semaphore` acquires a permit and `worker.run`
  emits the 生成中 progress signal.
* `startRetry` / `endRetry`: a retry cycle inside `generate_image_async`,
  still under the held permit.
* `genFailed`: the worker's error path — `handle_error` marks 失败, then
  `worker.run` returns and the permit is released.
* `genSucceeded`: `handle_success` marks 下载中 and spawns the download
  task, then `worker.run` returns and the permit is released (no suspension
  point separates these, so they form one step).
* `genSucceededNoSave`: `handle_success` without a save path marks 成功
  directly.
* `downloadOk` / `downloadFailed`: the spawned `download_image_async` task
  finishes — no semaphore interaction. -/
inductive SchedStep : Sched → Sched → Prop where
  | dispatch (s : Sched) (i : Nat)
      (h : s.tasks.get? i = some .waiting) (hs : 0 < s.sem) :
      SchedStep s ⟨s.sem - 1, s.tasks.set i .generating⟩
  | startRetry (s : Sched) (i : Nat)
      (h : s.tasks.get? i = some .generating) :
      SchedStep s ⟨s.sem, s.tasks.set i .retrying⟩
  | endRetry (s : Sched) (i : Nat)
      (h : s.tasks.get? i = some .retrying) :
      SchedStep s ⟨s.sem, s.tasks.set i .generating⟩
  | genFailed (s : Sched) (i : Nat) (st : TStatus)
      (h : s.tasks.get? i = some st) (hst : holdsPermit st = true) :
      SchedStep s ⟨s.sem + 1, s.tasks.set i .failed⟩
  | genSucceeded (s : Sched) (i : Nat)
      (h : s.tasks.get? i = some .generating) :
      SchedStep s ⟨s.sem + 1, s.tasks.set i .downloading⟩
  | genSucceededNoSave (s : Sched) (i : Nat)
      (h : s.tasks.get? i = some .generating) :
      SchedStep s ⟨s.sem + 1, s.tasks.set i .succeeded⟩
  | downloadOk (s : Sched) (i : Nat)
      (h : s.tasks.get? i = some .downloading) :
      SchedStep s ⟨s.sem, s.tasks.set i .succeeded⟩
  | downloadFailed (s : Sched) (i : Nat)
      (h : s.tasks.get? i = some .downloading) :
      SchedStep s ⟨s.sem, s.tasks.set i .failed⟩

/-- Initial state of a batch of `n` waiting tasks under concurrency limit
`limit`: `asyncio.Semaphore(max_concurrent_tasks)` full, all rows 等待中. -/
def initSched (limit n : Nat) : Sched :=
  ⟨limit, List.replicate n .waiting⟩

/-- States the batch can reach from the initial state. -/
def SchedReachable (limit n : Nat) (s : Sched) : Prop :=
  Relation.ReflTransGen SchedStep (initSched limit n) s

/-- Number of tasks currently holding a permit. -/
def permitCount (s : Sched) : Nat :=
  s.tasks.countP holdsPermit

/-- Number of tasks in {Generating, Retrying, Downloading}. -/
def inFlightCount (s : Sched) : Nat :=
  s.tasks.countP inFlight

lemma countP_set (p : TStatus → Bool) (l : List TStatus) :
    ∀ (i : Nat) (a b : TStatus), l.get? i = some a →
      (l.set i b).countP p + (if p a then 1 else 0) =
        l.countP p + (if p b then 1 else 0) := by
  induction l with
  | nil => intro i a b h; simp at h
  | cons x tl ih =>
    intro i a b h
    match i with
    | 0 =>
      simp only [List.get?_cons_zero, Option.some.injEq] at h
      subst h
      simp only [List.set_cons_zero, List.countP_cons]
      by_cases hpa : p x = true <;> by_cases hpb : p b = true <;>
        simp [hpa, hpb]
    | i + 1 =>
      simp only [List.get?_cons_succ] at h
      have := ih i a b h
      simp only [List.set_cons_succ, List.countP_cons]
      by_cases hpx : p x = true <;> simp [hpx] <;> omega

lemma countP_replicate_zero (p : TStatus → Bool) (n : Nat) (a : TStatus)
    (ha : p a = false) : (List.replicate n a).countP p = 0 := by
  induction n with
  | zero => simp
  | succ n ih => simp [List.replicate_succ, List.countP_cons, ha, ih]

lemma permitCount_step {s1 s2 : Sched} (hstep : SchedStep s1 s2) :
    permitCount s2 + s2.sem = permitCount s1 + s1.sem := by
  cases hstep with
  | dispatch i h1 hs =>
    have hc := countP_set holdsPermit s1.tasks i _ .generating h1
    simp only [holdsPermit] at hc
    simp only [permitCount]
    simp at hc
    omega
  | startRetry i h1 =>
    have hc := countP_set holdsPermit s1.tasks i _ .retrying h1
    simp only [holdsPermit] at hc
    simp only [permitCount]
    simp at hc
    omega
  | endRetry i h1 =>
    have hc := countP_set holdsPermit s1.tasks i _ .generating h1
    simp only [holdsPermit] at hc
    simp only [permitCount]
    simp at hc
    omega
  | genFailed i st h1 hst =>
    have hc := countP_set holdsPermit s1.tasks i _ .failed h1
    rw [hst] at hc
    simp only [permitCount]
    simp [holdsPermit] at hc
    omega
  | genSucceeded i h1 =>
    have hc := countP_set holdsPermit s1.tasks i _ .downloading h1
    simp only [holdsPermit] at hc
    simp only [permitCount]
    simp at hc
    omega
  | genSucceededNoSave i h1 =>
    have hc := countP_set holdsPermit s1.tasks i _ .succeeded h1
    simp only [holdsPermit] at hc
    simp only [permitCount]
    simp at hc
    omega
  | downloadOk i h1 =>
    have hc := countP_set holdsPermit s1.tasks i _ .succeeded h1
    simp only [holdsPermit] at hc
    simp only [permitCount]
    simp at hc
    omega
  | downloadFailed i h1 =>
    have hc := countP_set holdsPermit s1.tasks i _ .failed h1
    simp only [holdsPermit] at hc
    simp only [permitCount]
    simp at hc
    omega

lemma permitCount_invariant (limit n : Nat) (s : Sched)
    (h : SchedReachable limit n s) : permitCount s + s.sem = limit := by
  induction h with
  | refl =>
    simp [initSched, permitCount,
      countP_replicate_zero holdsPermit n .waiting rfl]
  | tail _ hstep ih =>
    rw [permitCount_step hstep]
    exact ih


/-- C1 (amended): in every reachable state, at most `limit` tasks are in
{Generating, Retrying} — generation and its retries run under the semaphore.
Downloads are spawned outside the gate, so the bound does not extend to
Downloading. -/
theorem scheduler_gate_bound (limit n : Nat) (s : Sched)
    (h : SchedReachable limit n s) : permitCount s ≤ limit := by
  have := permitCount_invariant limit n s h
  omega

/-- C1 amended witness: the bound at the initial two-task state with
limit 1. -/
theorem scheduler_gate_bound_witness :
    permitCount (initSched 1 2) ≤ 1 :=
  scheduler_gate_bound 1 2 (initSched 1 2) Relation.ReflTransGen.refl

/-- C1 counterexample: with limit 1 and two tasks, the state with one task
Downloading and one Generating is reachable (task 0 finishes generating and
its download is spawned outside the gate, freeing the permit for task 1), so
2 > 1 tasks occupy {Generating, Retrying, Downloading} at one instant. -/
theorem scheduler_gate_counterexample :
    SchedReachable 1 2 ⟨0, [.downloading, .generating]⟩ ∧
    1 < inFlightCount ⟨0, [.downloading, .generating]⟩ := by
  constructor
  · have s1 : SchedStep (initSched 1 2) ⟨0, [.generating, .waiting]⟩ :=
      SchedStep.dispatch (initSched 1 2) 0 rfl (by decide)
    have s2 : SchedStep ⟨0, [.generating, .waiting]⟩
        ⟨1, [.downloading, .waiting]⟩ :=
      SchedStep.genSucceeded ⟨0, [.generating, .waiting]⟩ 0 rfl
    have s3 : SchedStep ⟨1, [.downloading, .waiting]⟩
        ⟨0, [.downloading, .generating]⟩ :=
      SchedStep.dispatch ⟨1, [.downloading, .waiting]⟩ 1 rfl (by decide)
    exact ((Relation.ReflTransGen.refl.tail s1).tail s2).tail s3
  · decide

/-! ### DownloadManager — `main.py` `get_unique_filename` (lines 4939-4955),
`download_image_async` (lines 4957-5031), `mark_download_failed` /
`mark_download_complete` (lines 5049-5081).  The filesystem is a list of
existing filenames; network and file I/O outcomes come from an oracle. -/

/-- `f"{number}.png"`. -/
def base_name (number : Nat) : String :=
  toString number ++ ".png"

/-- `f"{number}-{counter}.png"`. -/
def candidate_name (number c : Nat) : String :=
  toString number ++ "-" ++ toString c ++ ".png"

/-- The `while True` probe loop of `get_unique_filename`, starting at counter
`c`.  `fuel` bounds the loop; on a finite filesystem `files.length + 1`
probes always reach a free name. -/
def probeFrom (files : List String) (number : Nat) : Nat → Nat → Option String
  | _, 0 => none
  | c, fuel + 1 =>
    let nm := candidate_name number c
    if nm ∈ files then probeFrom files number (c + 1) fuel else some nm

/-- `get_unique_filename`: the base name if unused, else the first unused
`"{number}-{c}.png"` for `c = 2, 3, …`. -/
def get_unique_filename (files : List String) (number : Nat) (fuel : Nat) :
    Option String :=
  if base_name number ∈ files then probeFrom files number 2 fuel
  else some (base_name number)

example : get_unique_filename ["7.png"] 7 10 = some "7-2.png" := by decide

example :
    get_unique_filename ["7.png", "7-2.png"] 7 10 = some "7-3.png" := by decide

lemma probeFrom_spec (files : List String) (number : Nat) :
    ∀ fuel c f, probeFrom files number c fuel = some f →
      f ∉ files ∧
      ∃ k, k < fuel ∧ f = candidate_name number (c + k) ∧
        ∀ j, c ≤ j → j < c + k → candidate_name number j ∈ files := by
  intro fuel
  induction fuel with
  | zero => intro c f h; simp [probeFrom] at h
  | succ fuel ih =>
    intro c f h
    by_cases hm : candidate_name number c ∈ files
    · simp only [probeFrom, hm, if_true] at h
      rcases ih (c + 1) f h with ⟨h1, k, hk, hf, hall⟩
      refine ⟨h1, k + 1, by omega, by rw [hf]; congr 1; omega, ?_⟩
      intro j hj1 hj2
      by_cases hj0 : j = c
      · exact hj0 ▸ hm
      · exact hall j (by omega) (by omega)
    · simp only [probeFrom, hm, if_false, Option.some.injEq] at h
      subst h
      exact ⟨hm, 0, by omega, by simp, by omega⟩

/-- C7: the derived filename is `"{n}.png"` when that name is unused;
whenever a name is returned it does not name an existing file; when the base
name exists, the returned name is the first unused `"{n}-{c}.png"` in the
probe sequence `c = 2, 3, …`; and concretely, with `"7.png"` existing the
next name is `"7-2.png"` and with both the next is `"7-3.png"`. -/
theorem unique_filename_spec (files : List String) (n fuel : Nat) :
    (base_name n ∉ files →
      get_unique_filename files n fuel = some (base_name n)) ∧
    (∀ f, get_unique_filename files n fuel = some f → f ∉ files) ∧
    (∀ f, base_name n ∈ files → get_unique_filename files n fuel = some f →
      ∃ c, 2 ≤ c ∧ f = candidate_name n c ∧ candidate_name n c ∉ files ∧
        ∀ j, 2 ≤ j → j < c → candidate_name n j ∈ files) ∧
    get_unique_filename ["7.png"] 7 10 = some "7-2.png" ∧
    get_unique_filename ["7.png", "7-2.png"] 7 10 = some "7-3.png" := by
  refine ⟨?_, ?_, ?_, by decide, by decide⟩
  · intro hb
    simp [get_unique_filename, hb]
  · intro f hf
    by_cases hb : base_name n ∈ files
    · simp only [get_unique_filename, hb, if_true] at hf
      exact (probeFrom_spec files n fuel 2 f hf).1
    · simp only [get_unique_filename, hb, if_false, Option.some.injEq] at hf
      subst hf
      exact hb
  · intro f hb hf
    simp only [get_unique_filename, hb, if_true] at hf
    rcases probeFrom_spec files n fuel 2 f hf with ⟨h1, k, hk, hfk, hall⟩
    refine ⟨2 + k, by omega, hfk, hfk ▸ h1, ?_⟩
    intro j hj1 hj2
    exact hall j hj1 hj2

/-- C7 witness: the first and third conjuncts applied at concrete inputs. -/
theorem unique_filename_spec_witness :
    get_unique_filename ["8.png"] 7 10 = some "7.png" ∧
    (∃ c, 2 ≤ c ∧ "7-3.png" = candidate_name 7 c ∧
      candidate_name 7 c ∉ ["7.png", "7-2.png"] ∧
      ∀ j, 2 ≤ j → j < c → candidate_name 7 j ∈ ["7.png", "7-2.png"]) := by
  constructor
  · exact (unique_filename_spec ["8.png"] 7 10).1 (by decide)
  · exact (unique_filename_spec ["7.png", "7-2.png"] 7 10).2.2.1 "7-3.png"
      (by decide) (by decide)

/-- A task row of `prompt_table_data`: the fields touched by the pipeline. -/
structure PromptRow where
  number : String
  prompt : String
  status : String
  image_url : String
  error_msg : String
  actual_filename : String
deriving DecidableEq

/-- Oracle for the effectful steps of one download: the HTTP status of the
GET, whether the file write succeeds, whether the base64 payload decodes, and
whether `os.makedirs` succeeds. -/
structure DlEnv where
  httpStatus : Nat
  writeOk : Bool
  b64Ok : Bool
  mkdirOk : Bool
deriving DecidableEq

/-- Terminal notification of one `download_image_async` run: either
`mark_download_complete` with the actual filename, or `mark_download_failed`
with the raw error message. -/
inductive DlEvent where
  | complete (filename : String)
  | failMark (msg : String)
deriving DecidableEq

/-- Result of one `download_image_async` run: the single notification it
issues and how many HTTP GET requests it performed. -/
structure DlResult where
  event : DlEvent
  httpAttempts : Nat
deriving DecidableEq

/-- Python `str.startswith`. -/
def dStartsWith (s p : String) : Bool :=
  p.data.isPrefixOf s.data

/-- `download_image_async`: derive a unique filename, then either decode an
inline `data:image/` payload and write it, or GET the URL once (no retry
loop exists here) and stream it to disk.  Exception texts from the `except`
clause (`"保存图片失败: " + str(e)`) are modelled with fixed stand-ins for
`str(e)`. -/
def download_image_async (env : DlEnv) (image_url : String) (number : Nat)
    (files : List String) : DlResult :=
  if !env.mkdirOk then ⟨.failMark "保存图片失败: makedirs", 0⟩
  else
    let filename := (get_unique_filename files number (files.length + 1)).getD
      (base_name number)
    if dStartsWith image_url "data:image/" then
      if env.b64Ok then
        if env.writeOk then ⟨.complete filename, 0⟩
        else ⟨.failMark "保存图片失败: write", 0⟩
      else ⟨.failMark "保存图片失败: b64decode", 0⟩
    else
      if env.httpStatus = 200 then
        if env.writeOk then ⟨.complete filename, 1⟩
        else ⟨.failMark "保存图片失败: write", 1⟩
      else ⟨.failMark ("HTTP " ++ toString env.httpStatus), 1⟩

/-- `mark_download_failed`: set the first row whose prompt matches to 失败
with the prefixed error text. -/
def mark_download_failed (rows : List PromptRow)
    (original_prompt msg : String) : List PromptRow :=
  match rows with
  | [] => []
  | r :: tl =>
    if r.prompt = original_prompt then
      { r with
          status := "失败",
          error_msg := "下载失败: " ++ msg } :: tl
    else r :: mark_download_failed tl original_prompt msg

/-- `mark_download_complete`: set the first row whose prompt matches to 成功,
recording the actual filename when given. -/
def mark_download_complete (rows : List PromptRow)
    (original_prompt : String) (actual : Option String) : List PromptRow :=
  match rows with
  | [] => []
  | r :: tl =>
    if r.prompt = original_prompt then
      { r with
          status := "成功",
          actual_filename := actual.getD r.actual_filename } :: tl
    else r :: mark_download_complete tl original_prompt actual

lemma mark_download_failed_spec (rows : List PromptRow)
    (original msg : String) (j : Nat) (r : PromptRow)
    (hj : rows.get? j = some r) (hp : r.prompt = original)
    (hfirst : ∀ k, k < j → ∀ r2, rows.get? k = some r2 →
      r2.prompt ≠ original) :
    (mark_download_failed rows original msg).get? j =
      some { r with status := "失败", error_msg := "下载失败: " ++ msg } ∧
    ∀ k, k ≠ j → (mark_download_failed rows original msg).get? k =
      rows.get? k := by
  induction rows generalizing j with
  | nil => simp at hj
  | cons x tl ih =>
    match j with
    | 0 =>
      simp only [List.get?_cons_zero, Option.some.injEq] at hj
      subst hj
      constructor
      · simp [mark_download_failed, hp]
      · intro k hk
        match k with
        | 0 => exact absurd rfl hk
        | k + 1 => simp [mark_download_failed, hp]
    | j + 1 =>
      simp only [List.get?_cons_succ] at hj
      have hx : x.prompt ≠ original :=
        hfirst 0 (by omega) x rfl
      have hfirst' : ∀ k, k < j → ∀ r2, tl.get? k = some r2 →
          r2.prompt ≠ original := by
        intro k hk r2 hr2
        exact hfirst (k + 1) (by omega) r2 (by simpa using hr2)
      rcases ih j hj hfirst' with ⟨ih1, ih2⟩
      constructor
      · simpa [mark_download_failed, hx] using ih1
      · intro k hk
        match k with
        | 0 => simp [mark_download_failed, hx]
        | k + 1 =>
          simpa [mark_download_failed, hx] using ih2 k (by omega)

/-- C9: when the download step fails (non-200 GET, write failure, or base64
decode failure), `download_image_async` performs at most one HTTP request (no
retry), issues exactly one notification — a `mark_download_failed` — and that
marking turns the first matching row to 失败 with an error text carrying the
`"下载失败: "` prefix, leaving every other row untouched. -/
theorem download_failure_no_retry (env : DlEnv) (url : String) (n : Nat)
    (files : List String) (rows : List PromptRow) (original : String)
    (j : Nat) (r : PromptRow)
    (hmk : env.mkdirOk = true)
    (hfail : (dStartsWith url "data:image/" = true ∧
        (env.b64Ok = false ∨ env.writeOk = false)) ∨
      (dStartsWith url "data:image/" = false ∧
        (¬ env.httpStatus = 200 ∨ env.writeOk = false)))
    (hj : rows.get? j = some r) (hp : r.prompt = original)
    (hfirst : ∀ k, k < j → ∀ r2, rows.get? k = some r2 →
      r2.prompt ≠ original) :
    (download_image_async env url n files).httpAttempts ≤ 1 ∧
    ∃ m, (download_image_async env url n files).event = .failMark m ∧
      (∀ f, (download_image_async env url n files).event ≠ .complete f) ∧
      dStartsWith ((mark_download_failed rows original m).get? j |>.getD r
        |>.error_msg) "下载失败: " = true ∧
      ((mark_download_failed rows original m).get? j |>.getD r).status =
        "失败" ∧
      ∀ k, k ≠ j → (mark_download_failed rows original m).get? k =
        rows.get? k := by
  have hatt : (download_image_async env url n files).httpAttempts ≤ 1 := by
    unfold download_image_async
    cases hb : env.b64Ok <;> cases hw : env.writeOk <;>
      cases hd2 : dStartsWith url "data:image/" <;>
      by_cases hs : env.httpStatus = 200 <;>
      simp [hmk, hb, hw, hd2, hs]
  refine ⟨hatt, ?_⟩
  have hev : ∃ m, (download_image_async env url n files).event =
      .failMark m := by
    unfold download_image_async
    cases hb : env.b64Ok <;> cases hw : env.writeOk <;>
      cases hd2 : dStartsWith url "data:image/" <;>
      by_cases hs : env.httpStatus = 200 <;>
      simp [hmk, hb, hw, hd2, hs] <;> simp_all
  rcases hev with ⟨m, hm⟩
  rcases mark_download_failed_spec rows original m j r hj hp hfirst
    with ⟨h1, h2⟩
  refine ⟨m, hm, ?_, ?_, ?_, h2⟩
  · intro f hf
    rw [hm] at hf
    exact DlEvent.noConfusion hf
  · rw [h1]
    simp only [Option.getD_some]
    have : ("下载失败: " ++ m).data = "下载失败: ".data ++ m.data :=
      String.data_append _ _
    simp [dStartsWith, this]
  · rw [h1]
    simp

/-- C9 witness: a concrete failing HTTP download (status 500). -/
theorem download_failure_no_retry_witness :
    (download_image_async ⟨500, true, true, true⟩ "http://h/x.png" 7
      []).httpAttempts ≤ 1 ∧
    ∃ m, (download_image_async ⟨500, true, true, true⟩ "http://h/x.png" 7
        []).event = .failMark m ∧
      (∀ f, (download_image_async ⟨500, true, true, true⟩ "http://h/x.png" 7
        []).event ≠ .complete f) ∧
      dStartsWith ((mark_download_failed [⟨"7", "p", "下载中", "", "", ""⟩]
        "p" m).get? 0 |>.getD ⟨"7", "p", "下载中", "", "", ""⟩
        |>.error_msg) "下载失败: " = true ∧
      ((mark_download_failed [⟨"7", "p", "下载中", "", "", ""⟩] "p" m).get? 0
        |>.getD ⟨"7", "p", "下载中", "", "", ""⟩).status = "失败" ∧
      ∀ k, k ≠ 0 → (mark_download_failed [⟨"7", "p", "下载中", "", "", ""⟩]
        "p" m).get? k = [(⟨"7", "p", "下载中", "", "", ""⟩ : PromptRow)].get? k := by
  have hrows : ([⟨"7", "p", "下载中", "", "", ""⟩] :
      List PromptRow).get? 0 = some ⟨"7", "p", "下载中", "", "", ""⟩ := rfl
  exact download_failure_no_retry ⟨500, true, true, true⟩ "http://h/x.png" 7
    [] [⟨"7", "p", "下载中", "", "", ""⟩] "p" 0 ⟨"7", "p", "下载中", "", "", ""⟩
    rfl (Or.inr ⟨by decide, Or.inl (by decide)⟩) hrows rfl
    (fun k hk r2 hr2 => absurd hk (by omega))

/-! ### Re-submission — `main.py` `start_generation` (lines 4540-4641).
The synchronous dispatch phase: collect only rows whose status is 等待中,
append style and ratio suffixes to the dispatched prompt text, and create one
worker per collected prompt.  Rows are not mutated by this phase. -/

/-- Python `needle in haystack` on strings. -/
def listContains (t p : List Char) : Bool :=
  (List.range (t.length + 1)).any fun i => p.isPrefixOf (t.drop i)

/-- The prompt post-processing of `start_generation`: append the style
content (when set and not already present) and the ratio marker (when not
already present). -/
def processPrompt (style_content ratio : String) (p : String) : String :=
  if listContains p.data ("图片比例【" ++ ratio ++ "】").data then p
  else
    let p1 :=
      if !decide (style_content = "") &&
          !listContains p.data style_content.data then
        p ++ " " ++ style_content
      else p
    p1 ++ " " ++ "图片比例【" ++ ratio ++ "】"

/-- One created worker: the processed prompt sent to the API, the original
prompt used as callback join key, the display number, and the reference-image
names extracted from the processed prompt. -/
structure Dispatch where
  prompt : String
  original : String
  number : String
  image_names : List String
deriving DecidableEq

/-- The synchronous phase of `start_generation`: the loop
`for data in self.prompt_table_data: if data.get('status', '等待中') ==
'等待中': prompts.append(...)`, prompt post-processing, and per-prompt worker
creation with `number = prompt_numbers.get(original, str(i + 1))`.  The row
list is returned unchanged — this phase never writes to it. -/
def start_generation (rows : List PromptRow)
    (prompt_numbers : String → Option String)
    (style_content ratio : String) (candNames : List String) :
    List Dispatch × List PromptRow :=
  let originals := rows.foldl
    (fun acc r => if r.status = "等待中" then acc ++ [r.prompt] else acc)
    ([] : List String)
  let processed := originals.map (processPrompt style_content ratio)
  let dispatches := processed.enum.map fun ip =>
    let original := originals.getD ip.1 ""
    { prompt := ip.2, original := original,
      number := (prompt_numbers original).getD (toString (ip.1 + 1)),
      image_names := extract_image_names candNames ip.2 }
  (dispatches, rows)

lemma collect_waiting_eq (rows : List PromptRow) : ∀ acc : List String,
    rows.foldl
      (fun acc r => if r.status = "等待中" then acc ++ [r.prompt] else acc)
      acc =
    acc ++ (rows.filter fun r => r.status = "等待中").map (·.prompt) := by
  induction rows with
  | nil => intro acc; simp
  | cons x tl ih =>
    intro acc
    by_cases hx : x.status = "等待中"
    · simp only [List.foldl_cons, hx, if_true, List.filter_cons,
        decide_eq_true_eq]
      rw [ih (acc ++ [x.prompt])]
      simp [hx]
    · simp only [List.foldl_cons, hx, if_false, List.filter_cons]
      rw [ih acc]
      simp [hx]

/-- C8: re-submitting a batch dispatches exactly the rows whose status is
等待中 — one worker per Waiting row, each worker's join key being a Waiting
row's prompt — and leaves the row list (all fields of every row, in
particular those of non-Waiting rows) unchanged. -/
theorem resubmission_skips_nonwaiting (rows : List PromptRow)
    (prompt_numbers : String → Option String)
    (style_content ratio : String) (candNames : List String) :
    (start_generation rows prompt_numbers style_content ratio candNames).2 =
      rows ∧
    (start_generation rows prompt_numbers style_content ratio
        candNames).1.length =
      (rows.filter fun r => r.status = "等待中").length ∧
    ∀ d ∈ (start_generation rows prompt_numbers style_content ratio
        candNames).1,
      ∃ r ∈ rows, r.status = "等待中" ∧ d.original = r.prompt := by
  refine ⟨rfl, ?_, ?_⟩
  · simp [start_generation, collect_waiting_eq rows []]
  · intro d hd
    simp only [start_generation, List.mem_map] at hd
    rcases hd with ⟨⟨i, p⟩, hip, hd⟩
    rw [List.mem_enum_iff_getElem?] at hip
    rcases List.getElem?_eq_some.1 hip with ⟨hlt, hpv⟩
    set originals := rows.foldl
      (fun acc r => if r.status = "等待中" then acc ++ [r.prompt] else acc)
      ([] : List String) with horig
    have hilen : i < originals.length := by simpa using hlt
    have hmem : originals.getD i "" ∈ originals := by
      rw [List.getD_eq_getElem?_getD, List.getElem?_eq_getElem hilen]
      exact List.getElem_mem _
    rw [horig, collect_waiting_eq rows []] at hmem
    simp only [List.nil_append, List.mem_map, List.mem_filter,
      decide_eq_true_eq] at hmem
    rcases hmem with ⟨r, ⟨hr, hst⟩, hpr⟩
    refine ⟨r, hr, hst, ?_⟩
    rw [← hd]
    have hor2 : originals =
        (rows.filter fun r => r.status = "等待中").map (·.prompt) := by
      rw [horig, collect_waiting_eq rows []]
      simp
    simp [hpr, hor2, List.getElem?_map]

/-- C8 witness: a mixed batch — the Succeeded row is skipped and untouched,
the Waiting row dispatched. -/
theorem resubmission_skips_nonwaiting_witness :
    (start_generation
      [⟨"1", "pa", "成功", "u", "", "1.png"⟩, ⟨"2", "pb", "等待中", "", "", ""⟩]
      (fun _ => none) "" "1:1" []).2 =
      [⟨"1", "pa", "成功", "u", "", "1.png"⟩,
       ⟨"2", "pb", "等待中", "", "", ""⟩] ∧
    (start_generation
      [⟨"1", "pa", "成功", "u", "", "1.png"⟩, ⟨"2", "pb", "等待中", "", "", ""⟩]
      (fun _ => none) "" "1:1" []).1.length =
      (([⟨"1", "pa", "成功", "u", "", "1.png"⟩,
         ⟨"2", "pb", "等待中", "", "", ""⟩] :
        List PromptRow).filter fun r => r.status = "等待中").length ∧
    ∀ d ∈ (start_generation
      [⟨"1", "pa", "成功", "u", "", "1.png"⟩, ⟨"2", "pb", "等待中", "", "", ""⟩]
      (fun _ => none) "" "1:1" []).1,
      ∃ r ∈ ([⟨"1", "pa", "成功", "u", "", "1.png"⟩,
              ⟨"2", "pb", "等待中", "", "", ""⟩] : List PromptRow),
        r.status = "等待中" ∧ d.original = r.prompt :=
  resubmission_skips_nonwaiting _ _ _ _ _

/-! ### HistoryStore — `services/history.py` `save_history_record`
(lines 15-98).  The storage directory is a list of `(filename, record)`
pairs; directory creation, per-file reads and per-file writes succeed or fail
according to an oracle.  The md5 content hash over the canonical JSON of
`(config subset, prompt texts)` is modelled by direct comparison of that
content pair: equal content gives equal digests (the only property the code
relies on), and distinct canonical JSON strings are identified with distinct
digests. -/

/-- The `config_data.get(...)` calls with their defaults. -/
structure ConfigData where
  api_platform : Option String
  model_type : Option String
  thread_count : Option Nat
  retry_count : Option Nat
  image_ratio : Option String
  current_style : Option String
  custom_style_content : Option String
deriving DecidableEq

/-- The `config` subset stored in a history record. -/
structure HistConfig where
  api_platform : String
  model_type : String
  thread_count : Nat
  retry_count : Nat
  image_ratio : String
  current_style : String
  custom_style_content : String
deriving DecidableEq

/-- `history_record["config"]` as built by `save_history_record`. -/
def configSubset (c : ConfigData) : HistConfig :=
  ⟨c.api_platform.getD "", c.model_type.getD "", c.thread_count.getD 5,
   c.retry_count.getD 3, c.image_ratio.getD "3:2", c.current_style.getD "",
   c.custom_style_content.getD ""⟩

/-- A stored history record (the JSON file layout of §save). -/
structure HistoryRecord where
  version : String
  created_time : String
  total_prompts : Nat
  success_count : Nat
  failed_count : Nat
  config : HistConfig
  prompts : List PromptRow
deriving DecidableEq

/-- The dedup content of a stored record: its config and its prompt texts —
explicitly excluding status and result fields. -/
def record_key (r : HistoryRecord) : HistConfig × List String :=
  (r.config, r.prompts.map (·.prompt))

/-- Python `str.endswith`. -/
def dEndsWith (s p : String) : Bool :=
  p.data.isSuffixOf s.data

/-- Does a filename match the dedup-scan glob `sora_history_*.json`? -/
def isHistFile (nm : String) : Bool :=
  dStartsWith nm "sora_history_" && dEndsWith nm ".json"

/-- I/O oracle for one save: `os.makedirs`, per-file `open`/`json.load`
reads, per-file writes. -/
structure FsEnv where
  mkdirOk : Bool
  readOk : String → Bool
  writeOk : String → Bool

/-- The fresh `history_record` dict (lines 22-38). -/
def newHistoryRecord (pd : List PromptRow) (cfg : ConfigData)
    (now : String) : HistoryRecord :=
  ⟨"3.4", now, pd.length, (pd.filter fun p => p.status = "成功").length,
   (pd.filter fun p => p.status = "失败").length, configSubset cfg, pd⟩

/-- The created filename: the caller's name with `.json` appended when
missing, else `sora_history_{timestamp}.json`. -/
def newFileName (filename : Option String) (ts : String) : String :=
  match filename with
  | some f => if dEndsWith f ".json" then f else f ++ ".json"
  | none => "sora_history_" ++ ts ++ ".json"

/-- The in-place update of a duplicate record (lines 70-79): timestamp,
counts and task list refreshed; version and config kept. -/
def updateRecord (old rec : HistoryRecord) (pd : List PromptRow) :
    HistoryRecord :=
  { old with
      created_time := rec.created_time,
      total_prompts := rec.total_prompts,
      success_count := rec.success_count,
      failed_count := rec.failed_count,
      prompts := pd }

/-- Write a record at `nm`: `open(path, "w")` overwrites an existing file of
that name, otherwise the file is created. -/
def upsertFile (files : List (String × HistoryRecord)) (nm : String)
    (rec : HistoryRecord) : List (String × HistoryRecord) :=
  if files.any fun f => f.1 = nm then
    files.map fun f => if f.1 = nm then (nm, rec) else f
  else files ++ [(nm, rec)]

/-- The new-file branch (lines 85-95): returns `none` when the final write
raises (caught by the outer handler). -/
def saveNew (env : FsEnv) (rec : HistoryRecord) (filename : Option String)
    (ts : String) (files : List (String × HistoryRecord)) :
    Option String × List (String × HistoryRecord) :=
  let fn := newFileName filename ts
  if env.writeOk fn then (some fn, upsertFile files fn rec) else (none, files)

/-- `save_history_record`: build the record, scan glob-matching files for one
whose dedup content matches (unreadable files are skipped), update that file
in place when found (falling through to new-file creation if the update
raises), else create a new file; a failed directory creation or a failed
final write surfaces as `None` through the outer `except`. -/
def save_history_record (env : FsEnv) (pd : List PromptRow)
    (cfg : ConfigData) (now ts : String) (filename : Option String)
    (files : List (String × HistoryRecord)) :
    Option String × List (String × HistoryRecord) :=
  if !env.mkdirOk then (none, files)
  else
    let rec0 := newHistoryRecord pd cfg now
    let key : HistConfig × List String := (configSubset cfg, pd.map (·.prompt))
    match files.find? fun f =>
        isHistFile f.1 && env.readOk f.1 && decide (record_key f.2 = key) with
    | some dup =>
      if env.readOk dup.1 && env.writeOk dup.1 then
        (some dup.1, files.map fun f =>
          if f.1 = dup.1 then (dup.1, updateRecord dup.2 rec0 pd) else f)
      else saveNew env rec0 filename ts files
    | none => saveNew env rec0 filename ts files

/-- The all-success I/O oracle. -/
def envAllOk : FsEnv :=
  ⟨true, fun _ => true, fun _ => true⟩

/-- An oracle where every read of an existing file fails. -/
def envReadFail : FsEnv :=
  ⟨true, fun _ => false, fun _ => true⟩

lemma find?_map_replace (nm : String) (newrec : HistoryRecord) :
    ∀ files : List (String × HistoryRecord), (∃ f ∈ files, f.1 = nm) →
      ((files.map fun f => if f.1 = nm then (nm, newrec) else f).find?
        fun f => f.1 = nm) = some (nm, newrec) := by
  intro files
  induction files with
  | nil => intro h; simp at h
  | cons x tl ih =>
    intro h
    by_cases hx : x.1 = nm
    · simp [List.find?_cons, hx]
    · have h' : ∃ f ∈ tl, f.1 = nm := by
        rcases h with ⟨f, hf, hfn⟩
        rcases List.mem_cons.1 hf with rfl | hf2
        · exact absurd hfn hx
        · exact ⟨f, hf2, hfn⟩
      simpa [List.find?_cons, hx] using ih h'

lemma find?_name_upsert (nm : String) (rec : HistoryRecord)
    (files : List (String × HistoryRecord)) :
    ((upsertFile files nm rec).find? fun f => f.1 = nm) = some (nm, rec) := by
  by_cases h : (files.any fun f => f.1 = nm) = true
  · rcases List.any_eq_true.1 h with ⟨f, hf, hfn⟩
    simpa [upsertFile, h] using
      find?_map_replace nm rec files ⟨f, hf, by simpa using hfn⟩
  · have hnone : (files.find? fun f => decide (f.1 = nm)) = none := by
      rw [List.find?_eq_none]
      intro f hf hc
      apply h
      rw [List.any_eq_true]
      exact ⟨f, hf, hc⟩
    simp [upsertFile, h, List.find?_append, hnone]

lemma mem_map_replaced (nm : String) (newrec : HistoryRecord)
    (files : List (String × HistoryRecord)) (f0 : String × HistoryRecord)
    (hf0 : f0 ∈ files) (hname : f0.1 = nm) :
    (nm, newrec) ∈ (files.map fun f =>
      if f.1 = nm then (nm, newrec) else f) := by
  apply List.mem_map.2
  exact ⟨f0, hf0, by simp [hname]⟩

lemma mem_upsert (nm : String) (rec : HistoryRecord)
    (files : List (String × HistoryRecord)) :
    (nm, rec) ∈ upsertFile files nm rec := by
  by_cases h : (files.any fun f => f.1 = nm) = true
  · rcases List.any_eq_true.1 h with ⟨f, hf, hfn⟩
    simpa [upsertFile, h] using
      mem_map_replaced nm rec files f hf (by simpa using hfn)
  · simp [upsertFile, h]

lemma isHistFile_generated (ts : String) :
    isHistFile ("sora_history_" ++ ts ++ ".json") = true := by
  unfold isHistFile dStartsWith dEndsWith
  rw [Bool.and_eq_true]
  constructor
  · rw [List.isPrefixOf_iff_prefix]
    rw [show ("sora_history_" ++ ts ++ ".json") =
      "sora_history_" ++ (ts ++ ".json") by rw [String.append_assoc]]
    rw [String.data_append]
    exact List.prefix_append _ _
  · rw [List.isSuffixOf_iff_suffix]
    rw [String.data_append]
    exact List.suffix_append _ _

/-- The dedup-scan predicate under the all-ok oracle. -/
def dupPred (pd : List PromptRow) (cfg : ConfigData)
    (f : String × HistoryRecord) : Bool :=
  isHistFile f.1 &&
    decide (record_key f.2 = (configSubset cfg, pd.map (·.prompt)))

/-- Evaluation of `save_history_record` under the all-ok oracle. -/
lemma save_allok_eq (pd : List PromptRow) (cfg : ConfigData)
    (now ts : String) (files : List (String × HistoryRecord)) :
    save_history_record envAllOk pd cfg now ts none files =
      match files.find? (dupPred pd cfg) with
      | some dup => (some dup.1, files.map fun f =>
          if f.1 = dup.1 then
            (dup.1, updateRecord dup.2 (newHistoryRecord pd cfg now) pd)
          else f)
      | none => (some ("sora_history_" ++ ts ++ ".json"),
          upsertFile files ("sora_history_" ++ ts ++ ".json")
            (newHistoryRecord pd cfg now)) := by
  unfold save_history_record saveNew newFileName
  have hpred : (fun f : String × HistoryRecord =>
      isHistFile f.1 && envAllOk.readOk f.1 &&
        decide (record_key f.2 = (configSubset cfg, pd.map (·.prompt)))) =
      dupPred pd cfg := by
    funext f
    simp [envAllOk, dupPred]
  rw [show (!envAllOk.mkdirOk) = false by rfl]
  simp only [Bool.false_eq_true, if_false, hpred]
  cases hdup : files.find? (dupPred pd cfg) with
  | some dup => simp [envAllOk]
  | none => simp [envAllOk]

/-- After a save with the all-ok oracle, the stored list contains an entry
whose name matches the dedup glob and whose dedup content equals the saved
content. -/
lemma save_leaves_matching_entry (pd : List PromptRow) (cfg : ConfigData)
    (now ts : String) (files : List (String × HistoryRecord)) :
    ∃ e ∈ (save_history_record envAllOk pd cfg now ts none files).2,
      isHistFile e.1 = true ∧
      record_key e.2 = (configSubset cfg, pd.map (·.prompt)) := by
  rw [save_allok_eq]
  cases hdup : files.find? (dupPred pd cfg) with
  | some dup =>
    have hpred := List.find?_some hdup
    have hmem := List.mem_of_find?_eq_some hdup
    rw [dupPred, Bool.and_eq_true, decide_eq_true_eq] at hpred
    refine ⟨(dup.1, updateRecord dup.2 (newHistoryRecord pd cfg now) pd),
      ?_, hpred.1, ?_⟩
    · exact mem_map_replaced dup.1 _ files dup hmem rfl
    · have h2 := hpred.2
      simp only [record_key, updateRecord, Prod.mk.injEq] at h2 ⊢
      exact ⟨h2.1, trivial⟩
  | none =>
    exact ⟨("sora_history_" ++ ts ++ ".json", newHistoryRecord pd cfg now),
      mem_upsert _ _ files, isHistFile_generated ts,
      by simp [record_key, newHistoryRecord]⟩

/-- C6: saving the same content pair (config subset, prompt texts) twice with
the all-ok oracle leaves the file count of the first save unchanged — the
second save finds the matching record and overwrites it in place, refreshing
its timestamp, counts and task list — instead of creating a second file. -/
theorem history_save_idempotent (pd1 pd2 : List PromptRow)
    (cfg1 cfg2 : ConfigData) (now1 now2 ts1 ts2 : String)
    (files : List (String × HistoryRecord))
    (hp : pd1.map (·.prompt) = pd2.map (·.prompt))
    (hc : configSubset cfg1 = configSubset cfg2) :
    ((save_history_record envAllOk pd2 cfg2 now2 ts2 none
      (save_history_record envAllOk pd1 cfg1 now1 ts1 none files).2).2).length =
      ((save_history_record envAllOk pd1 cfg1 now1 ts1 none
        files).2).length ∧
    ∃ nm rec,
      (save_history_record envAllOk pd2 cfg2 now2 ts2 none
        (save_history_record envAllOk pd1 cfg1 now1 ts1 none files).2).1 =
        some nm ∧
      ((save_history_record envAllOk pd2 cfg2 now2 ts2 none
        (save_history_record envAllOk pd1 cfg1 now1 ts1 none
          files).2).2).find? (fun f => f.1 = nm) = some (nm, rec) ∧
      rec.created_time = now2 ∧ rec.prompts = pd2 ∧
      rec.total_prompts = pd2.length ∧
      rec.success_count = (pd2.filter fun q => q.status = "成功").length ∧
      rec.failed_count = (pd2.filter fun q => q.status = "失败").length ∧
      rec.config = configSubset cfg2 := by
  set files1 := (save_history_record envAllOk pd1 cfg1 now1 ts1 none files).2
    with hf1
  have hentry : ∃ e ∈ files1, isHistFile e.1 = true ∧
      record_key e.2 = (configSubset cfg2, pd2.map (·.prompt)) := by
    rw [hf1, ← hp, ← hc]
    exact save_leaves_matching_entry pd1 cfg1 now1 ts1 files
  have hsome : (files1.find? (dupPred pd2 cfg2)).isSome := by
    rw [List.find?_isSome]
    rcases hentry with ⟨e, he, h1, h2⟩
    exact ⟨e, he, by simp [dupPred, h1, h2]⟩
  rcases Option.isSome_iff_exists.1 hsome with ⟨dup, hdup⟩
  have hpred := List.find?_some hdup
  have hmem := List.mem_of_find?_eq_some hdup
  rw [dupPred, Bool.and_eq_true, decide_eq_true_eq] at hpred
  have hsave2 : save_history_record envAllOk pd2 cfg2 now2 ts2 none files1 =
      (some dup.1, files1.map fun f =>
        if f.1 = dup.1 then
          (dup.1, updateRecord dup.2 (newHistoryRecord pd2 cfg2 now2) pd2)
        else f) := by
    rw [save_allok_eq, hdup]
  rw [hsave2]
  refine ⟨by simp, dup.1,
    updateRecord dup.2 (newHistoryRecord pd2 cfg2 now2) pd2, rfl, ?_,
    rfl, rfl, rfl, rfl, rfl, ?_⟩
  · exact find?_map_replace dup.1 _ files1 ⟨dup, hmem, rfl⟩
  · have h2 := hpred.2
    simp only [record_key, Prod.mk.injEq] at h2
    simpa [updateRecord] using h2.1

/-- C6 witness: two saves of the same one-prompt batch into an empty
directory. -/
theorem history_save_idempotent_witness :
    ((save_history_record envAllOk [⟨"1", "p", "成功", "u", "", "1.png"⟩]
      ⟨none, none, none, none, none, none, none⟩ "t2" "T2" none
      (save_history_record envAllOk [⟨"1", "p", "等待中", "", "", ""⟩]
        ⟨none, none, none, none, none, none, none⟩ "t1" "T1" none
        []).2).2).length =
      ((save_history_record envAllOk [⟨"1", "p", "等待中", "", "", ""⟩]
        ⟨none, none, none, none, none, none, none⟩ "t1" "T1" none
        []).2).length ∧
    ∃ nm rec,
      (save_history_record envAllOk [⟨"1", "p", "成功", "u", "", "1.png"⟩]
        ⟨none, none, none, none, none, none, none⟩ "t2" "T2" none
        (save_history_record envAllOk [⟨"1", "p", "等待中", "", "", ""⟩]
          ⟨none, none, none, none, none, none, none⟩ "t1" "T1" none
          []).2).1 = some nm ∧
      ((save_history_record envAllOk [⟨"1", "p", "成功", "u", "", "1.png"⟩]
        ⟨none, none, none, none, none, none, none⟩ "t2" "T2" none
        (save_history_record envAllOk [⟨"1", "p", "等待中", "", "", ""⟩]
          ⟨none, none, none, none, none, none, none⟩ "t1" "T1" none
          []).2).2).find? (fun f => f.1 = nm) = some (nm, rec) ∧
      rec.created_time = "t2" ∧
      rec.prompts = [⟨"1", "p", "成功", "u", "", "1.png"⟩] ∧
      rec.total_prompts = ([⟨"1", "p", "成功", "u", "", "1.png"⟩] :
        List PromptRow).length ∧
      rec.success_count = (([⟨"1", "p", "成功", "u", "", "1.png"⟩] :
        List PromptRow).filter fun q => q.status = "成功").length ∧
      rec.failed_count = (([⟨"1", "p", "成功", "u", "", "1.png"⟩] :
        List PromptRow).filter fun q => q.status = "失败").length ∧
      rec.config = configSubset ⟨none, none, none, none, none, none, none⟩ :=
  history_save_idempotent [⟨"1", "p", "等待中", "", "", ""⟩]
    [⟨"1", "p", "成功", "u", "", "1.png"⟩]
    ⟨none, none, none, none, none, none, none⟩
    ⟨none, none, none, none, none, none, none⟩
    "t1" "t2" "T1" "T2" [] rfl rfl

/-- A one-row prompt table. -/
def pdX : List PromptRow :=
  [⟨"1", "p", "等待中", "", "", ""⟩]

/-- A config with every key missing (all defaults apply). -/
def cfgX : ConfigData :=
  ⟨none, none, none, none, none, none, none⟩

/-- A stored record whose dedup content matches `(cfgX, pdX)`. -/
def recX : HistoryRecord :=
  newHistoryRecord pdX cfgX "t0"

/-- C10 counterexample: when reading the one existing (content-matching)
history file fails, the save does not return `None` — the read error is
swallowed by the scan's inner `except: continue` and a new file is created
and its path returned. -/
theorem history_save_swallows_read_error :
    (save_history_record envReadFail pdX cfgX "t1" "T2" none
      [("sora_history_a.json", recX)]).1 = some "sora_history_T2.json" ∧
    envReadFail.readOk "sora_history_a.json" = false ∧
    record_key recX = (configSubset cfgX, pdX.map (·.prompt)) := by decide

/-- C10 (amended): `save_history_record` is total (every exception of the
body is caught by the outer handler); it returns `None` exactly on the
failures reaching that handler — a failed directory creation or a failed
final create-write; whenever it returns a path, a record is stored under
that path.  Read errors during the dedup scan and a failed in-place update
are swallowed, falling back to creating a new record. -/
theorem history_save_total (env : FsEnv) (pd : List PromptRow)
    (cfg : ConfigData) (now ts : String) (fn : Option String)
    (files : List (String × HistoryRecord)) :
    (env.mkdirOk = false →
      save_history_record env pd cfg now ts fn files = (none, files)) ∧
    ((save_history_record env pd cfg now ts fn files).1 = none →
      env.mkdirOk = false ∨ env.writeOk (newFileName fn ts) = false) ∧
    (∀ p, (save_history_record env pd cfg now ts fn files).1 = some p →
      ∃ rec, ((save_history_record env pd cfg now ts fn files).2).find?
        (fun f => f.1 = p) = some (p, rec)) := by
  by_cases hm : env.mkdirOk = true
  · have hsave : save_history_record env pd cfg now ts fn files =
        (match files.find? fun f => isHistFile f.1 && env.readOk f.1 &&
            decide (record_key f.2 =
              (configSubset cfg, pd.map (·.prompt))) with
         | some dup =>
           if env.readOk dup.1 && env.writeOk dup.1 then
             (some dup.1, files.map fun f =>
               if f.1 = dup.1 then
                 (dup.1, updateRecord dup.2 (newHistoryRecord pd cfg now) pd)
               else f)
           else saveNew env (newHistoryRecord pd cfg now) fn ts files
         | none => saveNew env (newHistoryRecord pd cfg now) fn ts files) := by
      unfold save_history_record
      rw [hm]
      simp
    refine ⟨fun hcon => absurd hm (by simp [hcon]), ?_, ?_⟩
    · intro hnone
      rw [hsave] at hnone
      cases hdup : files.find? fun f => isHistFile f.1 && env.readOk f.1 &&
          decide (record_key f.2 =
            (configSubset cfg, pd.map (·.prompt))) with
      | some dup =>
        simp only [hdup] at hnone
        by_cases hrw : (env.readOk dup.1 && env.writeOk dup.1) = true
        · rw [if_pos hrw] at hnone
          exact absurd hnone (by simp)
        · rw [if_neg hrw] at hnone
          unfold saveNew at hnone
          by_cases hwn : env.writeOk (newFileName fn ts) = true
          · rw [if_pos hwn] at hnone
            exact absurd hnone (by simp)
          · exact Or.inr (by simpa using hwn)
      | none =>
        simp only [hdup] at hnone
        unfold saveNew at hnone
        by_cases hwn : env.writeOk (newFileName fn ts) = true
        · rw [if_pos hwn] at hnone
          exact absurd hnone (by simp)
        · exact Or.inr (by simpa using hwn)
    · intro p hp
      rw [hsave] at hp ⊢
      cases hdup : files.find? fun f => isHistFile f.1 && env.readOk f.1 &&
          decide (record_key f.2 =
            (configSubset cfg, pd.map (·.prompt))) with
      | some dup =>
        simp only [hdup] at hp ⊢
        have hmem := List.mem_of_find?_eq_some hdup
        by_cases hrw : (env.readOk dup.1 && env.writeOk dup.1) = true
        · rw [if_pos hrw] at hp ⊢
          have hpd : p = dup.1 := by simpa using hp.symm
          subst hpd
          exact ⟨updateRecord dup.2 (newHistoryRecord pd cfg now) pd,
            find?_map_replace dup.1 _ files ⟨dup, hmem, rfl⟩⟩
        · rw [if_neg hrw] at hp ⊢
          unfold saveNew at hp ⊢
          by_cases hwn : env.writeOk (newFileName fn ts) = true
          · rw [if_pos hwn] at hp ⊢
            have hpd : p = newFileName fn ts := by simpa using hp.symm
            subst hpd
            exact ⟨newHistoryRecord pd cfg now, find?_name_upsert _ _ _⟩
          · rw [if_neg hwn] at hp
            exact absurd hp (by simp)
      | none =>
        simp only [hdup] at hp ⊢
        unfold saveNew at hp ⊢
        by_cases hwn : env.writeOk (newFileName fn ts) = true
        · rw [if_pos hwn] at hp ⊢
          have hpd : p = newFileName fn ts := by simpa using hp.symm
          subst hpd
          exact ⟨newHistoryRecord pd cfg now, find?_name_upsert _ _ _⟩
        · rw [if_neg hwn] at hp
          exact absurd hp (by simp)
  · have hm2 : env.mkdirOk = false := by simpa using hm
    have hsave : save_history_record env pd cfg now ts fn files =
        (none, files) := by
      unfold save_history_record
      rw [hm2]
      simp
    refine ⟨fun _ => hsave, fun _ => Or.inl hm2, ?_⟩
    intro p hp
    rw [hsave] at hp
    exact absurd hp (by simp)

/-- C10 witness: the amended theorem applied at a failed directory creation
and at a successful save into an empty directory. -/
theorem history_save_total_witness :
    save_history_record ⟨false, fun _ => true, fun _ => true⟩ pdX cfgX
      "t1" "T1" none [] = (none, []) ∧
    ∃ rec, ((save_history_record envAllOk pdX cfgX "t1" "T1" none
      []).2).find? (fun f => f.1 = "sora_history_T1.json") =
        some ("sora_history_T1.json", rec) := by
  constructor
  · exact (history_save_total ⟨false, fun _ => true, fun _ => true⟩ pdX cfgX
      "t1" "T1" none []).1 rfl
  · exact (history_save_total envAllOk pdX cfgX "t1" "T1" none []).2.2
      "sora_history_T1.json" (by decide)

end SoraSpec
